import Mathlib

/-!
Verification of the crawl engine in `eigen_neovim/github_client.py`.

The development shallowly embeds the data model (`RepoInfo`, `ConfigFile`,
`FetchState` and its JSON serialization) and the resumable crawl generator
`GitHubClient.fetch_configs_resumable`.  Network and filesystem effects are
represented by a `World` record of deterministic response functions (a fixed
dataset of search responses, repository metadata, raw-content results, and the
disk cache); the generator becomes a function from a `World` and an initial
`FetchState` to a final state, the list of yielded `ConfigFile`s, and a trace
of observable events (API calls, progress-callback invocations, and
state-callback checkpoints).
-/

namespace EigenNeovim

/-- Repository information (`RepoInfo` dataclass). -/
structure RepoInfo where
  owner : String
  name : String
  url : String
  stars : Nat
  default_branch : String := "main"
  pushed_at : String := ""
  deriving DecidableEq, Repr

/-- A Neovim configuration file (`ConfigFile` dataclass): one yielded artifact. -/
structure ConfigFile where
  repo : RepoInfo
  path : String
  content : String
  deriving DecidableEq, Repr

/-- Fetch progress for resumption (`FetchState` dataclass).  The Python
`set[str]` fields are modelled as `Finset String`; the dataclass defaults are
the structure's defaults. -/
structure FetchState where
  query_index : Nat := 0
  page : Nat := 1
  total_fetched : Nat := 0
  seen_repos : Finset String := ∅
  failed_repos : Finset String := ∅
  completed_queries : List String := []
  deriving DecidableEq

/-- A fresh state, `FetchState()` with all dataclass defaults. -/
def FetchState.init : FetchState := {}

/-- A decoded JSON object for the persisted state.  Each field is `none` when
the key is absent from the dict, which is what `dict.get(key, default)`
branches on in `from_dict`.  The textual JSON layer is abstracted away:
`json.loads(json.dumps(d)) == d` for dicts of ints, strings and string lists,
so the file store holds decoded objects directly. -/
structure StateJson where
  query_index : Option Nat := none
  page : Option Nat := none
  total_fetched : Option Nat := none
  seen_repos : Option (List String) := none
  failed_repos : Option (List String) := none
  completed_queries : Option (List String) := none
  deriving DecidableEq

/-- `FetchState.to_dict`: the set-valued fields are serialized as lists
(`list(self.seen_repos)` enumerates the set in some order; the model picks the
sorted enumeration, which is one such order). -/
def FetchState.to_dict (s : FetchState) : StateJson :=
  { query_index := some s.query_index
    page := some s.page
    total_fetched := some s.total_fetched
    seen_repos := some (s.seen_repos.sort (· ≤ ·))
    failed_repos := some (s.failed_repos.sort (· ≤ ·))
    completed_queries := some s.completed_queries }

/-- `FetchState.from_dict`: each field falls back to the dataclass default when
the key is missing, and the list-encoded ledgers are turned back into sets. -/
def FetchState.from_dict (d : StateJson) : FetchState :=
  { query_index := d.query_index.getD 0
    page := d.page.getD 1
    total_fetched := d.total_fetched.getD 0
    seen_repos := (d.seen_repos.getD []).toFinset
    failed_repos := (d.failed_repos.getD []).toFinset
    completed_queries := d.completed_queries.getD [] }

/-- `FetchState.save`: writes `to_dict` under the given path.  The file system
is a map from paths to decoded JSON objects. -/
def FetchState.save (s : FetchState) (p : String) (store : String → Option StateJson) :
    String → Option StateJson :=
  fun p' => if p' = p then some s.to_dict else store p'

/-- `FetchState.load`: `from_dict` of the stored object when the path exists,
a fresh `FetchState()` otherwise. -/
def FetchState.load (p : String) (store : String → Option StateJson) : FetchState :=
  match store p with
  | some d => FetchState.from_dict d
  | none => FetchState.init

/-! ### The search API model -/

/-- One item of a code-search response: the fields the crawl reads.
`full_name` is `item["repository"]["full_name"]` (defaulted to `""` when
absent), `html_url` is `item["repository"]["html_url"]` (`none` when absent),
`path` is `item["path"]` (defaulted to `""`). -/
structure SearchItem where
  full_name : String
  html_url : Option String := none
  path : String := ""
  deriving DecidableEq, Repr

/-- A successful code-search response body: `items` and `total_count`. -/
structure SearchData where
  items : List SearchItem
  total_count : Nat := 0
  deriving DecidableEq, Repr

/-- Outcome of one attempt of the undecorated `_code_search` body:
a JSON body, an `httpx.HTTPStatusError` with a status code, a `RateLimitError`
(403 with the rate-limit markers), or an exception of any other type. -/
inductive SearchAttempt where
  | ok (data : SearchData)
  | httpStatus (code : Nat)
  | rateLimit (reset : Nat)
  | otherError
  deriving DecidableEq, Repr

/-- Outcome of `_get_repo_info` as observed through the caller's
`try/except Exception`: either a response carrying
(`stargazers_count`, `default_branch`, `pushed_at`) or some exception. -/
inductive RepoInfoOutcome where
  | ok (stars : Nat) (default_branch : String) (pushed_at : String)
  | err
  deriving DecidableEq, Repr

/-- Outcome of `_get_raw_content` as observed through the caller's
`try/except Exception`: the text, or some exception. -/
inductive ContentOutcome where
  | ok (content : String)
  | err
  deriving DecidableEq, Repr

/-- The deterministic environment of one crawl: a fixed dataset of search
responses per (query, page), the disk cache (`(output_dir / "owner__name.lua").exists()`
per repository, and `_get_cached_repos(output_dir)` as a set of full names),
repository metadata and raw-content responses. -/
structure World where
  searchAttempt : String → Nat → SearchAttempt
  cacheFileExists : String → String → Bool
  repoInfo : String → String → RepoInfoOutcome
  rawContent : String → String → String → String → ContentOutcome
  cachedRepos : Finset String

/-- What a caller of `_code_search` can observe. -/
inductive SearchOutcome where
  | ok (data : SearchData)
  | httpStatusError (code : Nat)
  | retryError
  | rateLimitError (reset : Nat)
  | otherError
  deriving DecidableEq, Repr

/-- `_code_search` as seen by its callers.  The tenacity decorator
`@retry(stop=stop_after_attempt(5), retry=retry_if_exception_type((httpx.HTTPStatusError, RateLimitError)))`
retries every `HTTPStatusError` (including 422) and every `RateLimitError`;
with a deterministic per-(query, page) outcome the five attempts all fail the
same way and, since `reraise` is left at its default `False`, the wrapper then
raises `tenacity.RetryError`.  An exception of any other type does not match
the retry predicate and propagates unchanged on the first attempt.  Hence a
caller never observes a bare `HTTPStatusError` or `RateLimitError` from
`_code_search`; the `SearchOutcome.httpStatusError` and
`SearchOutcome.rateLimitError` constructors exist so that the caller's
`except` chain can be transcribed faithfully. -/
def codeSearch (w : World) (q : String) (page : Nat) : SearchOutcome :=
  match w.searchAttempt q page with
  | .ok data => .ok data
  | .httpStatus _ => .retryError
  | .rateLimit _ => .retryError
  | .otherError => .otherError

/-- Python `full_name.split("/", 1)` on the character list: split at the first
`'/'`, returning `none` when there is no `'/'` (the `len(parts) != 2` case). -/
def splitAtFirstSlash : List Char → Option (List Char × List Char)
  | [] => none
  | c :: rest =>
      if c = '/' then some ([], rest)
      else match splitAtFirstSlash rest with
        | none => none
        | some (a, b) => some (c :: a, b)

/-- `owner, name = full_name.split("/", 1)` when the split has two parts. -/
def splitFullName (s : String) : Option (String × String) :=
  match splitAtFirstSlash s.data with
  | none => none
  | some (a, b) => some (⟨a⟩, ⟨b⟩)

/-! ### The crawl generator -/

/-- Kind of a `state_callback` invocation: every tenth fresh fetch, after each
page increment, or after the per-query epilogue. -/
inductive CheckpointKind where
  | periodic
  | pageBoundary
  | strategyBoundary
  deriving DecidableEq, Repr

/-- Observable events of one crawl: outbound API calls, `progress_callback`
invocations, and `state_callback` invocations with the state they receive. -/
inductive Event where
  | searchCall (q : String) (page : Nat)
  | repoInfoCall (owner name : String)
  | contentCall (owner name branch path : String)
  | progress (current maxRepos : Nat) (repo : Option RepoInfo) (q : String) (cached : Bool)
  | checkpoint (snapshot : FetchState) (kind : CheckpointKind)
  deriving DecidableEq

/-- Result of handling one search item inside the `for item in items` loop. -/
structure ItemResult where
  state : FetchState
  yielded : Option ConfigFile
  events : List Event
  deriving DecidableEq

/-- The body of the `for item in items:` loop for one item (the cap check at
the top of the loop body lives in `processItems`).  Dedup check against
`seen_repos`, owner/name split, disk-cache fast path, metadata lookup with
conservative defaults on failure, then content fetch: success yields a
`ConfigFile` and counts it, failure records the repository in `failed_repos`. -/
def processItem (w : World) (maxRepos : Nat) (q : String) (item : SearchItem)
    (s : FetchState) : ItemResult :=
  let full_name := item.full_name
  if full_name ∈ s.seen_repos then ⟨s, none, []⟩
  else
    let s1 : FetchState := { s with seen_repos := insert full_name s.seen_repos }
    match splitFullName full_name with
    | none => ⟨s1, none, []⟩
    | some (owner, name) =>
      if w.cacheFileExists owner name then
        let s2 : FetchState := { s1 with total_fetched := s1.total_fetched + 1 }
        ⟨s2, none, [.progress s2.total_fetched maxRepos none q true]⟩
      else
        let info := w.repoInfo owner name
        let stars := match info with | .ok st _ _ => st | .err => 0
        let default_branch := match info with | .ok _ b _ => b | .err => "main"
        let pushed_at := match info with | .ok _ _ p => p | .err => ""
        let repo : RepoInfo :=
          { owner := owner, name := name
            url := item.html_url.getD ("https://github.com/" ++ full_name)
            stars := stars, default_branch := default_branch, pushed_at := pushed_at }
        match w.rawContent owner name default_branch item.path with
        | .ok content =>
          let s2 : FetchState := { s1 with total_fetched := s1.total_fetched + 1 }
          ⟨s2, some ⟨repo, item.path, content⟩,
            [.repoInfoCall owner name, .contentCall owner name default_branch item.path,
             .progress s2.total_fetched maxRepos (some repo) q false] ++
            (if s2.total_fetched % 10 = 0 then [.checkpoint s2 .periodic] else [])⟩
        | .err =>
          ⟨{ s1 with failed_repos := insert full_name s1.failed_repos }, none,
            [.repoInfoCall owner name, .contentCall owner name default_branch item.path]⟩

/-- Result of a run of the `for item in items` loop over a whole page. -/
structure PageItemsResult where
  state : FetchState
  yields : List ConfigFile
  events : List Event
  deriving DecidableEq

/-- The `for item in items:` loop: each iteration first breaks out when the
global cap is reached, otherwise processes the item and continues. -/
def processItems (w : World) (maxRepos : Nat) (q : String) (items : List SearchItem)
    (s : FetchState) : PageItemsResult :=
  match items with
  | [] => ⟨s, [], []⟩
  | item :: rest =>
    if maxRepos ≤ s.total_fetched then ⟨s, [], []⟩
    else
      let r := processItem w maxRepos q item s
      let k := processItems w maxRepos q rest r.state
      ⟨k.state, r.yielded.toList ++ k.yields, r.events ++ k.events⟩

/-- How the `while state.total_fetched < max_repos:` page loop of one query
ends: 422 or empty page or pagination ceiling (`query_exhausted = True`),
`RateLimitError`/`RetryError` (`rate_limited = True`), the cap check at the
top of the loop failing, or an uncaught exception propagating out of the
generator. -/
inductive PageExit where
  | exhausted
  | rateLimited
  | capReached
  | raised
  deriving DecidableEq, Repr

/-- Result of the page loop of one query. -/
structure PageResult where
  state : FetchState
  yields : List ConfigFile
  events : List Event
  exit : PageExit
  deriving DecidableEq

/-- The inner `while state.total_fetched < max_repos:` loop of
`fetch_configs_resumable`: one iteration issues `_code_search` for the current
page, dispatches on its outcome (the 422 arm of `except httpx.HTTPStatusError`
marks the query exhausted, other status codes re-raise; `RateLimitError` and
`RetryError` set `rate_limited`), processes the page's items, then either
stops on the pagination ceiling (`state.page * 100 >= total_count or
state.page >= 10`) or increments `state.page`, reports the page-boundary
checkpoint, and continues.  Item processing never changes `state.page`, so the
increment is written from the page at loop entry. -/
def pageWalk (w : World) (maxRepos : Nat) (q : String) (s : FetchState) : PageResult :=
  if s.total_fetched < maxRepos then
    match codeSearch w q s.page with
    | .httpStatusError code =>
      if code = 422 then ⟨s, [], [.searchCall q s.page], .exhausted⟩
      else ⟨s, [], [.searchCall q s.page], .raised⟩
    | .retryError => ⟨s, [], [.searchCall q s.page], .rateLimited⟩
    | .rateLimitError _ => ⟨s, [], [.searchCall q s.page], .rateLimited⟩
    | .otherError => ⟨s, [], [.searchCall q s.page], .raised⟩
    | .ok data =>
      if data.items = [] then ⟨s, [], [.searchCall q s.page], .exhausted⟩
      else
        let r := processItems w maxRepos q data.items s
        if data.total_count ≤ s.page * 100 ∨ 10 ≤ s.page then
          ⟨r.state, r.yields, .searchCall q s.page :: r.events, .exhausted⟩
        else
          let s2 : FetchState := { r.state with page := s.page + 1 }
          let k := pageWalk w maxRepos q s2
          ⟨k.state, r.yields ++ k.yields,
            .searchCall q s.page :: (r.events ++ (Event.checkpoint s2 .pageBoundary :: k.events)),
            k.exit⟩
  else ⟨s, [], [], .capReached⟩
termination_by 10 - s.page
decreasing_by simp; omega

/-- How the whole crawl ends: catalog exhausted, the global cap reached, the
rate-limited early `return`, or an exception propagating to the caller. -/
inductive CrawlExit where
  | complete
  | maxReached
  | rateLimited
  | raised
  deriving DecidableEq, Repr

/-- Result of a whole crawl. -/
structure CrawlResult where
  state : FetchState
  yields : List ConfigFile
  events : List Event
  exit : CrawlExit
  deriving DecidableEq

/-- The outer `while state.query_index < len(queries) and state.total_fetched
< max_repos:` loop of `fetch_configs_resumable`.  A query already present in
`completed_queries` is skipped (`query_index += 1; page = 1`) without any
call.  Otherwise the page loop runs; only the `query_exhausted` exit appends
the query to `completed_queries`, advances `query_index` and resets `page` to
1 (the page loop leaves `query_index` unchanged, so the advance is written
from the index at loop entry); the post-query `state_callback` fires except
when an exception is propagating; the `rate_limited` exit returns from the
generator. -/
def crawlLoop (w : World) (maxRepos : Nat) (queries : List String) (s : FetchState) :
    CrawlResult :=
  if h : s.query_index < queries.length ∧ s.total_fetched < maxRepos then
    let q := queries.get ⟨s.query_index, h.1⟩
    if q ∈ s.completed_queries then
      crawlLoop w maxRepos queries { s with query_index := s.query_index + 1, page := 1 }
    else
      let r := pageWalk w maxRepos q s
      match r.exit with
      | .raised => ⟨r.state, r.yields, r.events, .raised⟩
      | .rateLimited =>
        ⟨r.state, r.yields, r.events ++ [.checkpoint r.state .strategyBoundary], .rateLimited⟩
      | .capReached =>
        ⟨r.state, r.yields, r.events ++ [.checkpoint r.state .strategyBoundary], .maxReached⟩
      | .exhausted =>
        let s2 : FetchState :=
          { r.state with
            completed_queries := r.state.completed_queries ++ [q]
            query_index := s.query_index + 1
            page := 1 }
        let k := crawlLoop w maxRepos queries s2
        ⟨k.state, r.yields ++ k.yields,
          r.events ++ (Event.checkpoint s2 .strategyBoundary :: k.events), k.exit⟩
  else
    ⟨s, [], [], if maxRepos ≤ s.total_fetched then .maxReached else .complete⟩
termination_by queries.length - s.query_index
decreasing_by all_goals simp; omega

/-- `custom_queries or QUERY_TEMPLATES`: Python `or` falls back to the
template catalog when `custom_queries` is `None` or the empty (falsy) list. -/
def queriesOf (custom_queries : Option (List String)) (templates : List String) :
    List String :=
  match custom_queries with
  | some qs => if qs = [] then templates else qs
  | none => templates

/-- `fetch_configs_resumable`: defaults the state to `FetchState()`, seeds
`seen_repos` from the disk cache (`state.seen_repos.update(existing_repos)`),
picks the query catalog, then runs the query loop. -/
def fetch_configs_resumable (w : World) (maxRepos : Nat) (state? : Option FetchState)
    (custom_queries : Option (List String)) (templates : List String) : CrawlResult :=
  let s := state?.getD FetchState.init
  let s1 : FetchState := { s with seen_repos := s.seen_repos ∪ w.cachedRepos }
  crawlLoop w maxRepos (queriesOf custom_queries templates) s1

/-- The states passed to `state_callback` at page boundaries (after
`state.page += 1`). -/
def pageSnapshots (evs : List Event) : List FetchState :=
  evs.filterMap fun e =>
    match e with
    | .checkpoint st .pageBoundary => some st
    | _ => none

/-- Every state passed to `state_callback`, of any kind. -/
def checkpointStates (evs : List Event) : List FetchState :=
  evs.filterMap fun e =>
    match e with
    | .checkpoint st _ => some st
    | _ => none

/-- The first `_code_search` call a crawl from the given state issues. -/
def firstSearchCall (w : World) (maxRepos : Nat) (queries : List String)
    (s : FetchState) : Option (String × Nat) :=
  (crawlLoop w maxRepos queries s).events.findSome? fun e =>
    match e with
    | .searchCall q p => some (q, p)
    | _ => none

/-- The repository full name of a yielded artifact, reassembled from the
owner/name split. -/
def fullNameOf (c : ConfigFile) : String :=
  c.repo.owner ++ "/" ++ c.repo.name

/-- The branch the content fetch uses: `default_branch` from the metadata
response, or the conservative default `"main"` when the lookup failed. -/
def branchOf : RepoInfoOutcome → String
  | .ok _ b _ => b
  | .err => "main"

/-- Does a search outcome land in the `except (RateLimitError, RetryError)`
arm? -/
def SearchOutcome.isRateLimitSignal : SearchOutcome → Prop
  | .retryError => True
  | .rateLimitError _ => True
  | _ => False

instance : DecidablePred SearchOutcome.isRateLimitSignal := by
  intro o
  cases o <;> simp [SearchOutcome.isRateLimitSignal] <;> infer_instance

/-! ### Splitting full names -/

theorem splitAtFirstSlash_append (l a b : List Char)
    (h : splitAtFirstSlash l = some (a, b)) : l = a ++ '/' :: b := by
  induction l generalizing a b with
  | nil => simp [splitAtFirstSlash] at h
  | cons c rest ih =>
    rw [splitAtFirstSlash] at h
    split at h
    · next hc =>
      obtain ⟨rfl, rfl⟩ := Prod.mk.injEq .. ▸ Option.some.inj h
      simp [hc]
    · next hc =>
      split at h
      · exact absurd h (by simp)
      · next a' b' hr =>
        obtain ⟨rfl, rfl⟩ := Prod.mk.injEq .. ▸ Option.some.inj h
        simpa using ih a' b' hr

theorem splitFullName_append (s o n : String)
    (h : splitFullName s = some (o, n)) : o ++ "/" ++ n = s := by
  unfold splitFullName at h
  cases hr : splitAtFirstSlash s.data with
  | none => rw [hr] at h; simp at h
  | some ab =>
    obtain ⟨a, b⟩ := ab
    rw [hr] at h
    simp only [Option.some.injEq, Prod.mk.injEq] at h
    obtain ⟨rfl, rfl⟩ := h
    have hd := splitAtFirstSlash_append s.data a b hr
    apply String.ext
    simp only [String.data_append]
    rw [hd]
    simp

/-! ### Preservation lemmas: which state fields each loop leaves unchanged -/

theorem processItem_preserves (w : World) (mq : Nat) (q : String) (item : SearchItem)
    (s : FetchState) :
    (processItem w mq q item s).state.query_index = s.query_index ∧
    (processItem w mq q item s).state.page = s.page ∧
    (processItem w mq q item s).state.completed_queries = s.completed_queries ∧
    s.seen_repos ⊆ (processItem w mq q item s).state.seen_repos ∧
    s.total_fetched ≤ (processItem w mq q item s).state.total_fetched := by
  unfold processItem
  dsimp only
  repeat' split
  all_goals simp [Finset.subset_insert]

theorem processItems_preserves (w : World) (mq : Nat) (q : String) (items : List SearchItem)
    (s : FetchState) :
    (processItems w mq q items s).state.query_index = s.query_index ∧
    (processItems w mq q items s).state.page = s.page ∧
    (processItems w mq q items s).state.completed_queries = s.completed_queries ∧
    s.seen_repos ⊆ (processItems w mq q items s).state.seen_repos ∧
    s.total_fetched ≤ (processItems w mq q items s).state.total_fetched := by
  induction items generalizing s with
  | nil => simp [processItems]
  | cons item rest ih =>
    rw [processItems]
    split
    · simp
    · have h1 := processItem_preserves w mq q item s
      have h2 := ih (processItem w mq q item s).state
      exact ⟨h2.1.trans h1.1, h2.2.1.trans h1.2.1, h2.2.2.1.trans h1.2.2.1,
        h1.2.2.2.1.trans h2.2.2.2.1, h1.2.2.2.2.trans h2.2.2.2.2⟩

theorem pageWalk_preserves (w : World) (mq : Nat) (q : String) (s : FetchState) :
    (pageWalk w mq q s).state.query_index = s.query_index ∧
    (pageWalk w mq q s).state.completed_queries = s.completed_queries ∧
    s.seen_repos ⊆ (pageWalk w mq q s).state.seen_repos := by
  induction s using pageWalk.induct w mq q with
  | case1 x hlt hsearch => rw [pageWalk]; simp [hlt, hsearch]
  | case2 x hlt code hsearch hcode => rw [pageWalk]; simp [hlt, hsearch, hcode]
  | case3 x hlt hsearch => rw [pageWalk]; simp [hlt, hsearch]
  | case4 x hlt reset hsearch => rw [pageWalk]; simp [hlt, hsearch]
  | case5 x hlt hsearch => rw [pageWalk]; simp [hlt, hsearch]
  | case6 x hlt data hsearch hempty => rw [pageWalk]; simp [hlt, hsearch, hempty]
  | case7 x hlt data hsearch hne hpag =>
    have h := processItems_preserves w mq q data.items x
    rw [pageWalk]
    simp only [hlt, hsearch, hne, hpag, if_true, if_false, ite_true, ite_false, if_pos, if_neg]
    simp_all
  | case8 x hlt data hsearch hne r hpag s2 ih =>
    have h := processItems_preserves w mq q data.items x
    rw [pageWalk]
    simp only [hlt, hsearch, hne, hpag, ite_true, ite_false, if_pos, if_neg]
    exact ⟨ih.1.trans h.1, ih.2.1.trans h.2.2.1, h.2.2.2.1.trans ih.2.2⟩
  | case9 x hlt => rw [pageWalk]; simp [hlt]

/-! ### Unfolding equations for the page loop and the query loop -/

theorem pageWalk_eq_cap (w : World) (mq : Nat) (q : String) (s : FetchState)
    (h : ¬ s.total_fetched < mq) :
    pageWalk w mq q s = ⟨s, [], [], .capReached⟩ := by
  rw [pageWalk, if_neg h]

theorem pageWalk_eq_422 (w : World) (mq : Nat) (q : String) (s : FetchState)
    (hlt : s.total_fetched < mq) (hs : codeSearch w q s.page = .httpStatusError 422) :
    pageWalk w mq q s = ⟨s, [], [.searchCall q s.page], .exhausted⟩ := by
  rw [pageWalk, if_pos hlt, hs]
  simp

theorem pageWalk_eq_raise (w : World) (mq : Nat) (q : String) (s : FetchState) (code : Nat)
    (hlt : s.total_fetched < mq) (hs : codeSearch w q s.page = .httpStatusError code)
    (hc : code ≠ 422) :
    pageWalk w mq q s = ⟨s, [], [.searchCall q s.page], .raised⟩ := by
  rw [pageWalk, if_pos hlt, hs]
  simp [hc]

theorem pageWalk_eq_retry (w : World) (mq : Nat) (q : String) (s : FetchState)
    (hlt : s.total_fetched < mq) (hs : codeSearch w q s.page = .retryError) :
    pageWalk w mq q s = ⟨s, [], [.searchCall q s.page], .rateLimited⟩ := by
  rw [pageWalk, if_pos hlt, hs]

theorem pageWalk_eq_rateLimit (w : World) (mq : Nat) (q : String) (s : FetchState) (reset : Nat)
    (hlt : s.total_fetched < mq) (hs : codeSearch w q s.page = .rateLimitError reset) :
    pageWalk w mq q s = ⟨s, [], [.searchCall q s.page], .rateLimited⟩ := by
  rw [pageWalk, if_pos hlt, hs]

theorem pageWalk_eq_other (w : World) (mq : Nat) (q : String) (s : FetchState)
    (hlt : s.total_fetched < mq) (hs : codeSearch w q s.page = .otherError) :
    pageWalk w mq q s = ⟨s, [], [.searchCall q s.page], .raised⟩ := by
  rw [pageWalk, if_pos hlt, hs]

theorem pageWalk_eq_empty (w : World) (mq : Nat) (q : String) (s : FetchState)
    (data : SearchData) (hlt : s.total_fetched < mq) (hs : codeSearch w q s.page = .ok data)
    (he : data.items = []) :
    pageWalk w mq q s = ⟨s, [], [.searchCall q s.page], .exhausted⟩ := by
  rw [pageWalk, if_pos hlt, hs]
  simp [he]

theorem pageWalk_eq_lastPage (w : World) (mq : Nat) (q : String) (s : FetchState)
    (data : SearchData) (hlt : s.total_fetched < mq) (hs : codeSearch w q s.page = .ok data)
    (hne : data.items ≠ []) (hpag : data.total_count ≤ s.page * 100 ∨ 10 ≤ s.page) :
    pageWalk w mq q s =
      ⟨(processItems w mq q data.items s).state, (processItems w mq q data.items s).yields,
        .searchCall q s.page :: (processItems w mq q data.items s).events, .exhausted⟩ := by
  rw [pageWalk, if_pos hlt, hs]
  simp [hne, hpag]

theorem pageWalk_eq_nextPage (w : World) (mq : Nat) (q : String) (s : FetchState)
    (data : SearchData) (hlt : s.total_fetched < mq) (hs : codeSearch w q s.page = .ok data)
    (hne : data.items ≠ []) (hpag : ¬(data.total_count ≤ s.page * 100 ∨ 10 ≤ s.page)) :
    pageWalk w mq q s =
      (let r := processItems w mq q data.items s
       let s2 : FetchState := { r.state with page := s.page + 1 }
       let k := pageWalk w mq q s2
       ⟨k.state, r.yields ++ k.yields,
        .searchCall q s.page :: (r.events ++ (Event.checkpoint s2 .pageBoundary :: k.events)),
        k.exit⟩) := by
  rw [pageWalk, if_pos hlt, hs]
  simp [hne, hpag]

theorem crawlLoop_eq_stop (w : World) (mq : Nat) (queries : List String) (s : FetchState)
    (h : ¬(s.query_index < queries.length ∧ s.total_fetched < mq)) :
    crawlLoop w mq queries s =
      ⟨s, [], [], if mq ≤ s.total_fetched then .maxReached else .complete⟩ := by
  rw [crawlLoop, dif_neg h]

theorem crawlLoop_eq_skip (w : World) (mq : Nat) (queries : List String) (s : FetchState)
    (h1 : s.query_index < queries.length) (h2 : s.total_fetched < mq)
    (hin : queries.get ⟨s.query_index, h1⟩ ∈ s.completed_queries) :
    crawlLoop w mq queries s =
      crawlLoop w mq queries { s with query_index := s.query_index + 1, page := 1 } := by
  rw [crawlLoop, dif_pos ⟨h1, h2⟩]
  simp only [hin, ite_true, if_pos]

theorem crawlLoop_eq_raised (w : World) (mq : Nat) (queries : List String) (s : FetchState)
    (q : String) (h1 : s.query_index < queries.length) (h2 : s.total_fetched < mq)
    (hq : queries.get ⟨s.query_index, h1⟩ = q) (hnin : q ∉ s.completed_queries)
    (hexit : (pageWalk w mq q s).exit = .raised) :
    crawlLoop w mq queries s =
      ⟨(pageWalk w mq q s).state, (pageWalk w mq q s).yields, (pageWalk w mq q s).events,
        .raised⟩ := by
  rw [crawlLoop, dif_pos ⟨h1, h2⟩]
  simp only [hq, hnin, ite_false, if_neg, hexit]

theorem crawlLoop_eq_rateLimited (w : World) (mq : Nat) (queries : List String) (s : FetchState)
    (q : String) (h1 : s.query_index < queries.length) (h2 : s.total_fetched < mq)
    (hq : queries.get ⟨s.query_index, h1⟩ = q) (hnin : q ∉ s.completed_queries)
    (hexit : (pageWalk w mq q s).exit = .rateLimited) :
    crawlLoop w mq queries s =
      ⟨(pageWalk w mq q s).state, (pageWalk w mq q s).yields,
        (pageWalk w mq q s).events ++
          [.checkpoint (pageWalk w mq q s).state .strategyBoundary], .rateLimited⟩ := by
  rw [crawlLoop, dif_pos ⟨h1, h2⟩]
  simp only [hq, hnin, ite_false, if_neg, hexit]

theorem crawlLoop_eq_capReached (w : World) (mq : Nat) (queries : List String) (s : FetchState)
    (q : String) (h1 : s.query_index < queries.length) (h2 : s.total_fetched < mq)
    (hq : queries.get ⟨s.query_index, h1⟩ = q) (hnin : q ∉ s.completed_queries)
    (hexit : (pageWalk w mq q s).exit = .capReached) :
    crawlLoop w mq queries s =
      ⟨(pageWalk w mq q s).state, (pageWalk w mq q s).yields,
        (pageWalk w mq q s).events ++
          [.checkpoint (pageWalk w mq q s).state .strategyBoundary], .maxReached⟩ := by
  rw [crawlLoop, dif_pos ⟨h1, h2⟩]
  simp only [hq, hnin, ite_false, if_neg, hexit]

theorem crawlLoop_eq_exhausted (w : World) (mq : Nat) (queries : List String) (s : FetchState)
    (q : String) (h1 : s.query_index < queries.length) (h2 : s.total_fetched < mq)
    (hq : queries.get ⟨s.query_index, h1⟩ = q) (hnin : q ∉ s.completed_queries)
    (hexit : (pageWalk w mq q s).exit = .exhausted) :
    crawlLoop w mq queries s =
      (let r := pageWalk w mq q s
       let s2 : FetchState :=
         { r.state with
           completed_queries := r.state.completed_queries ++ [q]
           query_index := s.query_index + 1
           page := 1 }
       let k := crawlLoop w mq queries s2
       ⟨k.state, r.yields ++ k.yields,
        r.events ++ (Event.checkpoint s2 .strategyBoundary :: k.events), k.exit⟩) := by
  rw [crawlLoop, dif_pos ⟨h1, h2⟩]
  simp only [hq, hnin, ite_false, if_neg, hexit]

/-! ### Dedup: yielded artifacts are fresh and recorded in the seen ledger -/

theorem processItem_state_seen (w : World) (mq : Nat) (q : String) (item : SearchItem)
    (s : FetchState) :
    (processItem w mq q item s).state.seen_repos =
      if item.full_name ∈ s.seen_repos then s.seen_repos
      else insert item.full_name s.seen_repos := by
  unfold processItem
  dsimp only
  repeat' split
  all_goals simp_all

theorem processItem_yielded (w : World) (mq : Nat) (q : String) (item : SearchItem)
    (s : FetchState) (c : ConfigFile)
    (h : (processItem w mq q item s).yielded = some c) :
    fullNameOf c = item.full_name ∧ item.full_name ∉ s.seen_repos := by
  unfold processItem at h
  dsimp only at h
  split at h
  · simp at h
  · next hseen =>
    split at h
    · simp at h
    · next owner name hsplit =>
      split at h
      · simp at h
      · split at h
        · next content hok =>
          simp only [Option.some.injEq] at h
          subst h
          exact ⟨by simpa [fullNameOf] using splitFullName_append _ _ _ hsplit, hseen⟩
        · simp at h

theorem processItems_yields (w : World) (mq : Nat) (q : String) (items : List SearchItem)
    (s : FetchState) :
    (∀ c ∈ (processItems w mq q items s).yields,
        fullNameOf c ∉ s.seen_repos ∧
        fullNameOf c ∈ (processItems w mq q items s).state.seen_repos) ∧
    ((processItems w mq q items s).yields.map fullNameOf).Nodup := by
  induction items generalizing s with
  | nil => simp [processItems]
  | cons item rest ih =>
    rw [processItems]
    split
    · simp
    · dsimp only
      have hmono := (processItem_preserves w mq q item s).2.2.2.1
      have hmono2 := (processItems_preserves w mq q rest (processItem w mq q item s).state).2.2.2.1
      have hih := ih (processItem w mq q item s).state
      cases hy : (processItem w mq q item s).yielded with
      | none =>
        simp only [hy, Option.toList_none, List.nil_append]
        exact ⟨fun c hc => ⟨fun hmem => ((hih.1 c hc).1 (hmono hmem)), (hih.1 c hc).2⟩, hih.2⟩
      | some c =>
        have hc := processItem_yielded w mq q item s c hy
        have hcseen : item.full_name ∈ (processItem w mq q item s).state.seen_repos := by
          rw [processItem_state_seen]
          simp [hc.2]
        simp only [hy, Option.toList_some, List.singleton_append, List.map_cons,
          List.nodup_cons, List.mem_cons]
        refine ⟨?_, ?_, hih.2⟩
        · rintro c' (rfl | hc')
          · exact ⟨hc.1 ▸ hc.2, hmono2 (hc.1 ▸ hcseen)⟩
          · exact ⟨fun hmem => (hih.1 c' hc').1 (hmono hmem), (hih.1 c' hc').2⟩
        · intro hmem
          obtain ⟨c', hc', hfc⟩ := List.mem_map.mp hmem
          exact (hih.1 c' hc').1 (hfc ▸ (hc.1 ▸ hcseen))

theorem pageWalk_yields (w : World) (mq : Nat) (q : String) (s : FetchState) :
    (∀ c ∈ (pageWalk w mq q s).yields,
        fullNameOf c ∉ s.seen_repos ∧
        fullNameOf c ∈ (pageWalk w mq q s).state.seen_repos) ∧
    ((pageWalk w mq q s).yields.map fullNameOf).Nodup := by
  induction s using pageWalk.induct w mq q with
  | case1 x hlt hsearch => rw [pageWalk_eq_422 w mq q x hlt hsearch]; simp
  | case2 x hlt code hsearch hcode => rw [pageWalk_eq_raise w mq q x code hlt hsearch hcode]; simp
  | case3 x hlt hsearch => rw [pageWalk_eq_retry w mq q x hlt hsearch]; simp
  | case4 x hlt reset hsearch => rw [pageWalk_eq_rateLimit w mq q x reset hlt hsearch]; simp
  | case5 x hlt hsearch => rw [pageWalk_eq_other w mq q x hlt hsearch]; simp
  | case6 x hlt data hsearch hempty => rw [pageWalk_eq_empty w mq q x data hlt hsearch hempty]; simp
  | case7 x hlt data hsearch hne hpag =>
    rw [pageWalk_eq_lastPage w mq q x data hlt hsearch hne hpag]
    exact processItems_yields w mq q data.items x
  | case8 x hlt data hsearch hne r hpag s2 ih =>
    rw [pageWalk_eq_nextPage w mq q x data hlt hsearch hne hpag]
    have h := processItems_yields w mq q data.items x
    have hm1 := (processItems_preserves w mq q data.items x).2.2.2.1
    have hm2 := (pageWalk_preserves w mq q s2).2.2
    constructor
    · intro c hc
      rcases List.mem_append.mp hc with hc1 | hc2
      · exact ⟨(h.1 c hc1).1, hm2 ((h.1 c hc1).2)⟩
      · exact ⟨fun hmem => (ih.1 c hc2).1 (hm1 hmem), (ih.1 c hc2).2⟩
    · rw [List.map_append, List.nodup_append]
      refine ⟨h.2, ih.2, ?_⟩
      intro a ha1 ha2
      obtain ⟨c1, hc1, rfl⟩ := List.mem_map.mp ha1
      obtain ⟨c2, hc2, hfc⟩ := List.mem_map.mp ha2
      exact (ih.1 c2 hc2).1 (hfc ▸ (h.1 c1 hc1).2)
  | case9 x hlt => rw [pageWalk_eq_cap w mq q x hlt]; simp

theorem crawlLoop_seen_mono (w : World) (mq : Nat) (queries : List String) (s : FetchState) :
    s.seen_repos ⊆ (crawlLoop w mq queries s).state.seen_repos := by
  induction s using crawlLoop.induct w mq queries with
  | case1 x h q hin =>
    rename_i ih
    rw [crawlLoop_eq_skip w mq queries x h.1 h.2 hin]
    exact ih
  | case2 x h q hnin r =>
    rename_i hexit
    rw [crawlLoop_eq_raised w mq queries x q h.1 h.2 rfl hnin hexit]
    exact (pageWalk_preserves w mq q x).2.2
  | case3 x h q hnin r =>
    rename_i hexit
    rw [crawlLoop_eq_rateLimited w mq queries x q h.1 h.2 rfl hnin hexit]
    exact (pageWalk_preserves w mq q x).2.2
  | case4 x h q hnin r =>
    rename_i hexit
    rw [crawlLoop_eq_capReached w mq queries x q h.1 h.2 rfl hnin hexit]
    exact (pageWalk_preserves w mq q x).2.2
  | case5 x h q hnin r hexit s2 =>
    rename_i ih
    rw [crawlLoop_eq_exhausted w mq queries x q h.1 h.2 rfl hnin hexit]
    exact ((pageWalk_preserves w mq q x).2.2).trans ih
  | case6 x hn =>
    rw [crawlLoop_eq_stop w mq queries x hn]

theorem crawlLoop_yields (w : World) (mq : Nat) (queries : List String) (s : FetchState) :
    (∀ c ∈ (crawlLoop w mq queries s).yields,
        fullNameOf c ∉ s.seen_repos ∧
        fullNameOf c ∈ (crawlLoop w mq queries s).state.seen_repos) ∧
    ((crawlLoop w mq queries s).yields.map fullNameOf).Nodup := by
  induction s using crawlLoop.induct w mq queries with
  | case1 x h q hin =>
    rename_i ih
    rw [crawlLoop_eq_skip w mq queries x h.1 h.2 hin]
    exact ih
  | case2 x h q hnin r =>
    rename_i hexit
    rw [crawlLoop_eq_raised w mq queries x q h.1 h.2 rfl hnin hexit]
    exact pageWalk_yields w mq q x
  | case3 x h q hnin r =>
    rename_i hexit
    rw [crawlLoop_eq_rateLimited w mq queries x q h.1 h.2 rfl hnin hexit]
    exact pageWalk_yields w mq q x
  | case4 x h q hnin r =>
    rename_i hexit
    rw [crawlLoop_eq_capReached w mq queries x q h.1 h.2 rfl hnin hexit]
    exact pageWalk_yields w mq q x
  | case5 x h q hnin r hexit s2 =>
    rename_i ih
    rw [crawlLoop_eq_exhausted w mq queries x q h.1 h.2 rfl hnin hexit]
    dsimp only
    have hpw := pageWalk_yields w mq q x
    have hm1 := (pageWalk_preserves w mq q x).2.2
    have hm2 := crawlLoop_seen_mono w mq queries
      { (pageWalk w mq q x).state with
        completed_queries := (pageWalk w mq q x).state.completed_queries ++ [q]
        query_index := x.query_index + 1
        page := 1 }
    constructor
    · intro c hc
      rcases List.mem_append.mp hc with hc1 | hc2
      · exact ⟨(hpw.1 c hc1).1, hm2 ((hpw.1 c hc1).2)⟩
      · exact ⟨fun hmem => (ih.1 c hc2).1 (hm1 hmem), (ih.1 c hc2).2⟩
    · rw [List.map_append, List.nodup_append]
      refine ⟨hpw.2, ih.2, ?_⟩
      intro a ha1 ha2
      obtain ⟨c1, hc1, rfl⟩ := List.mem_map.mp ha1
      obtain ⟨c2, hc2, hfc⟩ := List.mem_map.mp ha2
      exact (ih.1 c2 hc2).1 (hfc ▸ (hpw.1 c1 hc1).2)
  | case6 x hn =>
    rw [crawlLoop_eq_stop w mq queries x hn]
    simp

/-- C2: across a whole run of `fetch_configs_resumable`, no repository full
name appears in two yielded `ConfigFile`s, and no yielded artifact belongs to
a repository whose identifier was already in the initial `seen_repos` ledger
or was pre-seeded from the disk cache. -/
theorem fetch_resumable_dedup (w : World) (mq : Nat) (state? : Option FetchState)
    (custom : Option (List String)) (templates : List String) :
    ((fetch_configs_resumable w mq state? custom templates).yields.map fullNameOf).Nodup ∧
    ∀ c ∈ (fetch_configs_resumable w mq state? custom templates).yields,
      fullNameOf c ∉ (state?.getD FetchState.init).seen_repos ∧
      fullNameOf c ∉ w.cachedRepos := by
  unfold fetch_configs_resumable
  dsimp only
  constructor
  · exact (crawlLoop_yields w mq _ _).2
  · intro c hc
    have h := ((crawlLoop_yields w mq _ _).1 c hc).1
    simp only [Finset.mem_union, not_or] at h
    exact h

/-- C5: serializing and deserializing a `FetchState` is the identity:
`from_dict (to_dict s) = s` for every state (including empty ledgers, since
set equality is insensitive to the enumeration order used by the list
encoding), and `load` after `save` on any store returns the saved state. -/
theorem fetchState_roundtrip (s : FetchState) (p : String)
    (store : String → Option StateJson) :
    FetchState.from_dict (FetchState.to_dict s) = s ∧
    FetchState.load p (FetchState.save s p store) = s := by
  have h1 : FetchState.from_dict (FetchState.to_dict s) = s := by
    cases s
    simp [FetchState.from_dict, FetchState.to_dict, Finset.sort_toFinset]
  refine ⟨h1, ?_⟩
  unfold FetchState.load FetchState.save
  simp [h1]

/-- C9: a search hit whose repository already has a saved artifact on disk is
counted but not re-downloaded: `total_fetched` is incremented, the progress
callback fires with `cached=True` (and no repository descriptor), and no
repository-metadata or content-retrieval call is issued and nothing is
yielded. -/
theorem cache_fast_path (w : World) (mq : Nat) (q : String) (item : SearchItem)
    (s : FetchState) (o n : String)
    (hseen : item.full_name ∉ s.seen_repos)
    (hsplit : splitFullName item.full_name = some (o, n))
    (hcache : w.cacheFileExists o n = true) :
    processItem w mq q item s =
      ⟨{ s with
         seen_repos := insert item.full_name s.seen_repos
         total_fetched := s.total_fetched + 1 }, none,
       [.progress (s.total_fetched + 1) mq none q true]⟩ := by
  unfold processItem
  dsimp only
  rw [if_neg hseen]
  simp only [hsplit, hcache, ite_true, if_pos]

theorem pageWalk_rateLimited (w : World) (mq : Nat) (q : String) (s : FetchState)
    (h : (pageWalk w mq q s).exit = .rateLimited) :
    (pageWalk w mq q s).state.total_fetched < mq ∧
    (codeSearch w q (pageWalk w mq q s).state.page).isRateLimitSignal := by
  induction s using pageWalk.induct w mq q with
  | case1 x hlt hsearch => rw [pageWalk_eq_422 w mq q x hlt hsearch] at h ⊢; simp at h
  | case2 x hlt code hsearch hcode =>
    rw [pageWalk_eq_raise w mq q x code hlt hsearch hcode] at h ⊢; simp at h
  | case3 x hlt hsearch =>
    rw [pageWalk_eq_retry w mq q x hlt hsearch]
    exact ⟨hlt, by simp [hsearch, SearchOutcome.isRateLimitSignal]⟩
  | case4 x hlt reset hsearch =>
    rw [pageWalk_eq_rateLimit w mq q x reset hlt hsearch]
    exact ⟨hlt, by simp [hsearch, SearchOutcome.isRateLimitSignal]⟩
  | case5 x hlt hsearch => rw [pageWalk_eq_other w mq q x hlt hsearch] at h ⊢; simp at h
  | case6 x hlt data hsearch hempty =>
    rw [pageWalk_eq_empty w mq q x data hlt hsearch hempty] at h ⊢; simp at h
  | case7 x hlt data hsearch hne hpag =>
    rw [pageWalk_eq_lastPage w mq q x data hlt hsearch hne hpag] at h ⊢; simp at h
  | case8 x hlt data hsearch hne r hpag s2 ih =>
    rw [pageWalk_eq_nextPage w mq q x data hlt hsearch hne hpag] at h ⊢
    exact ih h
  | case9 x hlt => rw [pageWalk_eq_cap w mq q x hlt] at h ⊢; simp at h

theorem pageWalk_events_head (w : World) (mq : Nat) (q : String) (s : FetchState)
    (hlt : s.total_fetched < mq) :
    (pageWalk w mq q s).events.head? = some (.searchCall q s.page) := by
  rw [pageWalk, if_pos hlt]
  cases hcs : codeSearch w q s.page <;> (repeat' split) <;> simp

theorem crawlLoop_first_search (w : World) (mq : Nat) (queries : List String)
    (s : FetchState) (q : String) (h1 : s.query_index < queries.length)
    (h2 : s.total_fetched < mq) (hq : queries.get ⟨s.query_index, h1⟩ = q)
    (hnin : q ∉ s.completed_queries) :
    firstSearchCall w mq queries s = some (q, s.page) := by
  have hhead := pageWalk_events_head w mq q s h2
  cases hev : (pageWalk w mq q s).events with
  | nil => rw [hev] at hhead; simp at hhead
  | cons e t =>
    rw [hev] at hhead
    simp only [List.head?_cons, Option.some.injEq] at hhead
    subst hhead
    unfold firstSearchCall
    cases hexit : (pageWalk w mq q s).exit with
    | raised =>
      rw [crawlLoop_eq_raised w mq queries s q h1 h2 hq hnin hexit, hev]
      simp [List.findSome?]
    | rateLimited =>
      rw [crawlLoop_eq_rateLimited w mq queries s q h1 h2 hq hnin hexit, hev]
      simp [List.findSome?]
    | capReached =>
      rw [crawlLoop_eq_capReached w mq queries s q h1 h2 hq hnin hexit, hev]
      simp [List.findSome?]
    | exhausted =>
      rw [crawlLoop_eq_exhausted w mq queries s q h1 h2 hq hnin hexit]
      dsimp only
      rw [hev]
      simp [List.findSome?]

theorem crawlLoop_rateLimited_halt (w : World) (mq : Nat)
    (queries : List String) (s : FetchState)
    (hrl : (crawlLoop w mq queries s).exit = .rateLimited) :
    ∃ q, queries.get? (crawlLoop w mq queries s).state.query_index = some q ∧
      q ∉ (crawlLoop w mq queries s).state.completed_queries ∧
      (codeSearch w q (crawlLoop w mq queries s).state.page).isRateLimitSignal ∧
      (crawlLoop w mq queries s).state.total_fetched < mq ∧
      firstSearchCall w mq queries (crawlLoop w mq queries s).state =
        some (q, (crawlLoop w mq queries s).state.page) := by
  induction s using crawlLoop.induct w mq queries with
  | case1 x h q hin =>
    rename_i ih
    rw [crawlLoop_eq_skip w mq queries x h.1 h.2 hin] at hrl ⊢
    exact ih hrl
  | case2 x h q hnin r =>
    rename_i hexit
    rw [crawlLoop_eq_raised w mq queries x q h.1 h.2 rfl hnin hexit] at hrl
    simp at hrl
  | case3 x h q hnin r =>
    rename_i hexit
    have hpres := pageWalk_preserves w mq q x
    have hchar := pageWalk_rateLimited w mq q x hexit
    rw [crawlLoop_eq_rateLimited w mq queries x q h.1 h.2 rfl hnin hexit]
    dsimp only
    refine ⟨q, ?_, ?_, hchar.2, hchar.1, ?_⟩
    · rw [hpres.1, List.get?_eq_get h.1]
    · rw [hpres.2.1]; exact hnin
    · refine crawlLoop_first_search w mq queries (pageWalk w mq q x).state q
        (hpres.1 ▸ h.1) hchar.1 ?_ (hpres.2.1 ▸ hnin)
      simp only [hpres.1]
  | case4 x h q hnin r =>
    rename_i hexit
    rw [crawlLoop_eq_capReached w mq queries x q h.1 h.2 rfl hnin hexit] at hrl
    simp at hrl
  | case5 x h q hnin r hexit s2 =>
    rename_i ih
    rw [crawlLoop_eq_exhausted w mq queries x q h.1 h.2 rfl hnin hexit] at hrl ⊢
    exact ih hrl
  | case6 x hn =>
    rw [crawlLoop_eq_stop w mq queries x hn] at hrl
    dsimp only at hrl
    split at hrl <;> simp at hrl

/-- C1: (first part) whenever the page walk's search call for the current
strategy and page fails with the rate-limit / retries-exhausted condition
(`RateLimitError` or `RetryError`), the whole crawl halts on the spot: the
query loop returns with exit `RATE_LIMITED`, nothing yielded past that point,
the state exactly as it was when the failing call was issued (the strategy not
appended to `completed_queries`, `query_index` and `page` untouched), after
one final strategy-boundary checkpoint.  (Second part) conversely, whenever
`fetch_configs_resumable` halts rate-limited, the final state still points at
the very strategy and page of the failing call — the search outcome at
`(queries[query_index], page)` is the rate-limit signal — that strategy is not
in `completed_queries`, the global cap was not the reason for stopping, and a
crawl resumed from this state issues its first search call for exactly that
strategy and that page. -/
theorem rate_limit_halts_at_failing_call (w : World) (mq : Nat)
    (state? : Option FetchState) (custom : Option (List String))
    (templates : List String) :
    (∀ (s : FetchState) (h1 : s.query_index < (queriesOf custom templates).length),
      (queriesOf custom templates).get ⟨s.query_index, h1⟩ ∉ s.completed_queries →
      s.total_fetched < mq →
      (codeSearch w ((queriesOf custom templates).get ⟨s.query_index, h1⟩)
        s.page).isRateLimitSignal →
      crawlLoop w mq (queriesOf custom templates) s =
        ⟨s, [],
         [.searchCall ((queriesOf custom templates).get ⟨s.query_index, h1⟩) s.page,
          .checkpoint s .strategyBoundary], .rateLimited⟩) ∧
    ((fetch_configs_resumable w mq state? custom templates).exit = .rateLimited →
      ∃ q, (queriesOf custom templates).get?
          (fetch_configs_resumable w mq state? custom templates).state.query_index = some q ∧
        q ∉ (fetch_configs_resumable w mq state? custom templates).state.completed_queries ∧
        (codeSearch w q
          (fetch_configs_resumable w mq state? custom templates).state.page).isRateLimitSignal ∧
        (fetch_configs_resumable w mq state? custom templates).state.total_fetched < mq ∧
        firstSearchCall w mq (queriesOf custom templates)
            (fetch_configs_resumable w mq state? custom templates).state =
          some (q, (fetch_configs_resumable w mq state? custom templates).state.page)) := by
  constructor
  · intro s h1 hnin hlt hsig
    have hpw : pageWalk w mq ((queriesOf custom templates).get ⟨s.query_index, h1⟩) s =
        ⟨s, [], [.searchCall ((queriesOf custom templates).get ⟨s.query_index, h1⟩) s.page],
         .rateLimited⟩ := by
      cases hcs : codeSearch w ((queriesOf custom templates).get ⟨s.query_index, h1⟩) s.page with
      | retryError => exact pageWalk_eq_retry w mq _ s hlt hcs
      | rateLimitError reset => exact pageWalk_eq_rateLimit w mq _ s reset hlt hcs
      | ok data => rw [hcs] at hsig; simp [SearchOutcome.isRateLimitSignal] at hsig
      | httpStatusError code => rw [hcs] at hsig; simp [SearchOutcome.isRateLimitSignal] at hsig
      | otherError => rw [hcs] at hsig; simp [SearchOutcome.isRateLimitSignal] at hsig
    have hexit : (pageWalk w mq ((queriesOf custom templates).get ⟨s.query_index, h1⟩) s).exit =
        .rateLimited := by rw [hpw]
    have hcr := crawlLoop_eq_rateLimited w mq (queriesOf custom templates) s _ h1 hlt rfl
      hnin hexit
    rw [hcr, hpw]
    simp
  · intro hrl
    unfold fetch_configs_resumable at hrl ⊢
    exact crawlLoop_rateLimited_halt w mq _ _ hrl

theorem pageSnapshots_append (a b : List Event) :
    pageSnapshots (a ++ b) = pageSnapshots a ++ pageSnapshots b := by
  simp [pageSnapshots]

theorem pageSnapshots_processItem (w : World) (mq : Nat) (q : String) (item : SearchItem)
    (s : FetchState) :
    pageSnapshots (processItem w mq q item s).events = [] := by
  unfold processItem
  dsimp only
  repeat' split
  all_goals simp [pageSnapshots]

theorem pageSnapshots_processItems (w : World) (mq : Nat) (q : String)
    (items : List SearchItem) (s : FetchState) :
    pageSnapshots (processItems w mq q items s).events = [] := by
  induction items generalizing s with
  | nil => simp [processItems, pageSnapshots]
  | cons item rest ih =>
    rw [processItems]
    split
    · simp [pageSnapshots]
    · dsimp only
      rw [pageSnapshots_append, pageSnapshots_processItem, ih]
      rfl

theorem pageSnapshots_pageBoundary (st : FetchState) :
    pageSnapshots [.checkpoint st .pageBoundary] = [st] := by
  simp [pageSnapshots]

theorem pageWalk_snapshots (w : World) (mq : Nat) (q : String) (s : FetchState) :
    ∀ smid ∈ pageSnapshots (pageWalk w mq q s).events,
      smid.query_index = s.query_index ∧
      smid.completed_queries = s.completed_queries ∧
      s.seen_repos ⊆ smid.seen_repos ∧
      (pageWalk w mq q smid).state = (pageWalk w mq q s).state ∧
      (pageWalk w mq q smid).exit = (pageWalk w mq q s).exit := by
  induction s using pageWalk.induct w mq q with
  | case1 x hlt hsearch => rw [pageWalk_eq_422 w mq q x hlt hsearch]; simp [pageSnapshots]
  | case2 x hlt code hsearch hcode =>
    rw [pageWalk_eq_raise w mq q x code hlt hsearch hcode]; simp [pageSnapshots]
  | case3 x hlt hsearch => rw [pageWalk_eq_retry w mq q x hlt hsearch]; simp [pageSnapshots]
  | case4 x hlt reset hsearch =>
    rw [pageWalk_eq_rateLimit w mq q x reset hlt hsearch]; simp [pageSnapshots]
  | case5 x hlt hsearch => rw [pageWalk_eq_other w mq q x hlt hsearch]; simp [pageSnapshots]
  | case6 x hlt data hsearch hempty =>
    rw [pageWalk_eq_empty w mq q x data hlt hsearch hempty]; simp [pageSnapshots]
  | case7 x hlt data hsearch hne hpag =>
    rw [pageWalk_eq_lastPage w mq q x data hlt hsearch hne hpag]
    dsimp only
    intro smid hmem
    rw [show Event.searchCall q x.page :: (processItems w mq q data.items x).events =
      [Event.searchCall q x.page] ++ (processItems w mq q data.items x).events from rfl,
      pageSnapshots_append, pageSnapshots_processItems] at hmem
    simp [pageSnapshots] at hmem
  | case8 x hlt data hsearch hne r hpag s2 ih =>
    have heq := pageWalk_eq_nextPage w mq q x data hlt hsearch hne hpag
    have hpres := processItems_preserves w mq q data.items x
    intro smid hmem
    rw [heq] at hmem
    dsimp only at hmem
    rw [show Event.searchCall q x.page ::
        ((processItems w mq q data.items x).events ++
          (Event.checkpoint { (processItems w mq q data.items x).state with page := x.page + 1 }
            CheckpointKind.pageBoundary ::
            (pageWalk w mq q
              { (processItems w mq q data.items x).state with page := x.page + 1 }).events)) =
      ([Event.searchCall q x.page] ++
        (processItems w mq q data.items x).events) ++
        ([Event.checkpoint { (processItems w mq q data.items x).state with page := x.page + 1 }
            CheckpointKind.pageBoundary] ++
          (pageWalk w mq q
            { (processItems w mq q data.items x).state with page := x.page + 1 }).events)
      from by simp] at hmem
    rw [pageSnapshots_append, pageSnapshots_append, pageSnapshots_append,
      pageSnapshots_processItems, pageSnapshots_pageBoundary] at hmem
    have hsc : pageSnapshots [Event.searchCall q x.page] = [] := by simp [pageSnapshots]
    rw [hsc] at hmem
    simp only [List.nil_append, List.append_nil] at hmem
    rw [List.mem_append] at hmem
    rcases hmem with heqs | hmem
    · rw [List.mem_singleton] at heqs
      subst heqs
      refine ⟨hpres.1, hpres.2.2.1, hpres.2.2.2.1, ?_, ?_⟩
      · rw [heq]
      · rw [heq]
    · have hih := ih smid hmem
      refine ⟨hih.1.trans hpres.1, hih.2.1.trans hpres.2.2.1,
        hpres.2.2.2.1.trans hih.2.2.1, ?_, ?_⟩
      · rw [heq]; exact hih.2.2.2.1
      · rw [heq]; exact hih.2.2.2.2
  | case9 x hlt => rw [pageWalk_eq_cap w mq q x hlt]; simp [pageSnapshots]

theorem pageSnapshots_strategyBoundary (st : FetchState) :
    pageSnapshots [.checkpoint st .strategyBoundary] = [] := by
  simp [pageSnapshots]

theorem crawlLoop_snapshots (w : World) (mq : Nat) (queries : List String) (s : FetchState) :
    ∀ smid ∈ pageSnapshots (crawlLoop w mq queries s).events,
      s.seen_repos ⊆ smid.seen_repos ∧
      (crawlLoop w mq queries smid).state = (crawlLoop w mq queries s).state ∧
      (crawlLoop w mq queries smid).exit = (crawlLoop w mq queries s).exit := by
  induction s using crawlLoop.induct w mq queries with
  | case1 x h q hin =>
    rename_i ih
    rw [crawlLoop_eq_skip w mq queries x h.1 h.2 hin]
    exact ih
  | case2 x h q hnin r =>
    rename_i hexit
    rw [crawlLoop_eq_raised w mq queries x q h.1 h.2 rfl hnin hexit]
    intro smid hmem
    have hw := pageWalk_snapshots w mq q x smid hmem
    obtain ⟨hqi, hcomp, hseen, hstate, hexit2⟩ := hw
    have hcap' : smid.total_fetched < mq := by
      by_contra hc
      have h1 := pageWalk_eq_cap w mq q smid hc
      rw [h1] at hexit2
      rw [hexit] at hexit2
      simp at hexit2
    have h1' : smid.query_index < queries.length := by rw [hqi]; exact h.1
    have hget : queries.get ⟨smid.query_index, h1'⟩ = q := by
      have hfin : (⟨smid.query_index, h1'⟩ : Fin queries.length) = ⟨x.query_index, h.1⟩ :=
        Fin.ext hqi
      rw [hfin]
    have hnin' : q ∉ smid.completed_queries := by rw [hcomp]; exact hnin
    have hexit' : (pageWalk w mq q smid).exit = .raised := hexit2.trans hexit
    rw [crawlLoop_eq_raised w mq queries smid q h1' hcap' hget hnin' hexit']
    exact ⟨hseen, hstate, rfl⟩
  | case3 x h q hnin r =>
    rename_i hexit
    rw [crawlLoop_eq_rateLimited w mq queries x q h.1 h.2 rfl hnin hexit]
    intro smid hmem
    rw [pageSnapshots_append, pageSnapshots_strategyBoundary, List.append_nil] at hmem
    have hw := pageWalk_snapshots w mq q x smid hmem
    obtain ⟨hqi, hcomp, hseen, hstate, hexit2⟩ := hw
    have hcap' : smid.total_fetched < mq := by
      by_contra hc
      have h1 := pageWalk_eq_cap w mq q smid hc
      rw [h1] at hexit2
      rw [hexit] at hexit2
      simp at hexit2
    have h1' : smid.query_index < queries.length := by rw [hqi]; exact h.1
    have hget : queries.get ⟨smid.query_index, h1'⟩ = q := by
      have hfin : (⟨smid.query_index, h1'⟩ : Fin queries.length) = ⟨x.query_index, h.1⟩ :=
        Fin.ext hqi
      rw [hfin]
    have hnin' : q ∉ smid.completed_queries := by rw [hcomp]; exact hnin
    have hexit' : (pageWalk w mq q smid).exit = .rateLimited := hexit2.trans hexit
    rw [crawlLoop_eq_rateLimited w mq queries smid q h1' hcap' hget hnin' hexit']
    exact ⟨hseen, hstate, rfl⟩
  | case4 x h q hnin r =>
    rename_i hexit
    rw [crawlLoop_eq_capReached w mq queries x q h.1 h.2 rfl hnin hexit]
    intro smid hmem
    rw [pageSnapshots_append, pageSnapshots_strategyBoundary, List.append_nil] at hmem
    have hw := pageWalk_snapshots w mq q x smid hmem
    obtain ⟨hqi, hcomp, hseen, hstate, hexit2⟩ := hw
    by_cases hcap' : smid.total_fetched < mq
    · have h1' : smid.query_index < queries.length := by rw [hqi]; exact h.1
      have hget : queries.get ⟨smid.query_index, h1'⟩ = q := by
        have hfin : (⟨smid.query_index, h1'⟩ : Fin queries.length) = ⟨x.query_index, h.1⟩ :=
          Fin.ext hqi
        rw [hfin]
      have hnin' : q ∉ smid.completed_queries := by rw [hcomp]; exact hnin
      have hexit' : (pageWalk w mq q smid).exit = .capReached := hexit2.trans hexit
      rw [crawlLoop_eq_capReached w mq queries smid q h1' hcap' hget hnin' hexit']
      exact ⟨hseen, hstate, rfl⟩
    · have hstop := crawlLoop_eq_stop w mq queries smid (fun hc => hcap' hc.2)
      have hpwcap := pageWalk_eq_cap w mq q smid hcap'
      have hsmid : smid = (pageWalk w mq q x).state := by
        rw [hpwcap] at hstate
        exact hstate
      rw [hstop]
      refine ⟨hseen, ?_, ?_⟩
      · exact hsmid
      · have : mq ≤ smid.total_fetched := Nat.le_of_not_lt hcap'
        simp [this]
  | case5 x h q hnin r hexit s2 =>
    rename_i ih
    rw [crawlLoop_eq_exhausted w mq queries x q h.1 h.2 rfl hnin hexit]
    dsimp only
    intro smid hmem
    rw [show (pageWalk w mq q x).events ++
        (Event.checkpoint s2 CheckpointKind.strategyBoundary ::
          (crawlLoop w mq queries s2).events) =
      (pageWalk w mq q x).events ++
        ([Event.checkpoint s2 CheckpointKind.strategyBoundary] ++
          (crawlLoop w mq queries s2).events) from by simp] at hmem
    rw [pageSnapshots_append, pageSnapshots_append, pageSnapshots_strategyBoundary,
      List.nil_append, List.mem_append] at hmem
    rcases hmem with hmem | hmem
    · have hw := pageWalk_snapshots w mq q x smid hmem
      obtain ⟨hqi, hcomp, hseen, hstate, hexit2⟩ := hw
      have hcap' : smid.total_fetched < mq := by
        by_contra hc
        have h1 := pageWalk_eq_cap w mq q smid hc
        rw [h1] at hexit2
        rw [hexit] at hexit2
        simp at hexit2
      have h1' : smid.query_index < queries.length := by rw [hqi]; exact h.1
      have hget : queries.get ⟨smid.query_index, h1'⟩ = q := by
        have hfin : (⟨smid.query_index, h1'⟩ : Fin queries.length) = ⟨x.query_index, h.1⟩ :=
          Fin.ext hqi
        rw [hfin]
      have hnin' : q ∉ smid.completed_queries := by rw [hcomp]; exact hnin
      have hexit' : (pageWalk w mq q smid).exit = .exhausted := hexit2.trans hexit
      rw [crawlLoop_eq_exhausted w mq queries smid q h1' hcap' hget hnin' hexit']
      dsimp only
      rw [hstate, hqi]
      exact ⟨hseen, rfl, rfl⟩
    · have hih := ih smid hmem
      refine ⟨?_, hih.2.1, hih.2.2⟩
      exact ((pageWalk_preserves w mq q x).2.2).trans hih.1
  | case6 x hn =>
    rw [crawlLoop_eq_stop w mq queries x hn]
    simp [pageSnapshots]

/-- C3: against a fixed dataset, interrupting the crawl at any page boundary
(one of the states handed to `state_callback` right after `state.page += 1`)
and re-running `fetch_configs_resumable` from that persisted state reaches the
same final `total_fetched` and the same final `seen_repos` set as the
uninterrupted run. -/
theorem resume_after_page_boundary (w : World) (mq : Nat) (state? : Option FetchState)
    (custom : Option (List String)) (templates : List String) (smid : FetchState)
    (hmem : smid ∈ pageSnapshots (fetch_configs_resumable w mq state? custom templates).events) :
    (fetch_configs_resumable w mq (some smid) custom templates).state.total_fetched =
      (fetch_configs_resumable w mq state? custom templates).state.total_fetched ∧
    (fetch_configs_resumable w mq (some smid) custom templates).state.seen_repos =
      (fetch_configs_resumable w mq state? custom templates).state.seen_repos := by
  unfold fetch_configs_resumable at hmem ⊢
  dsimp only at hmem ⊢
  simp only [Option.getD_some]
  have hsnap := crawlLoop_snapshots w mq (queriesOf custom templates) _ smid hmem
  have hcached : w.cachedRepos ⊆ smid.seen_repos :=
    (Finset.subset_union_right).trans hsnap.1
  have habs : { smid with seen_repos := smid.seen_repos ∪ w.cachedRepos } = smid := by
    cases smid
    simp only [FetchState.mk.injEq, and_true, true_and]
    exact Finset.union_eq_left.mpr hcached
  rw [habs]
  exact ⟨congrArg FetchState.total_fetched hsnap.2.1, congrArg FetchState.seen_repos hsnap.2.1⟩

theorem checkpointStates_append (a b : List Event) :
    checkpointStates (a ++ b) = checkpointStates a ++ checkpointStates b := by
  simp [checkpointStates]

theorem processItem_failed_sub (w : World) (mq : Nat) (q : String) (item : SearchItem)
    (s : FetchState) (hsub : s.failed_repos ⊆ s.seen_repos) :
    (processItem w mq q item s).state.failed_repos ⊆
      (processItem w mq q item s).state.seen_repos ∧
    ∀ st ∈ checkpointStates (processItem w mq q item s).events,
      st.failed_repos ⊆ st.seen_repos := by
  unfold processItem
  dsimp only
  repeat' split
  all_goals
    simp_all [checkpointStates, Finset.insert_subset_insert]
  all_goals
    intro a ha
    exact Finset.mem_insert_of_mem (hsub ha)

theorem processItems_failed_sub (w : World) (mq : Nat) (q : String)
    (items : List SearchItem) (s : FetchState) (hsub : s.failed_repos ⊆ s.seen_repos) :
    (processItems w mq q items s).state.failed_repos ⊆
      (processItems w mq q items s).state.seen_repos ∧
    ∀ st ∈ checkpointStates (processItems w mq q items s).events,
      st.failed_repos ⊆ st.seen_repos := by
  induction items generalizing s with
  | nil => simpa [processItems, checkpointStates] using hsub
  | cons item rest ih =>
    rw [processItems]
    split
    · simpa [checkpointStates] using hsub
    · dsimp only
      have h1 := processItem_failed_sub w mq q item s hsub
      have h2 := ih (processItem w mq q item s).state h1.1
      refine ⟨h2.1, ?_⟩
      intro st hst
      rw [checkpointStates_append, List.mem_append] at hst
      rcases hst with hst | hst
      · exact h1.2 st hst
      · exact h2.2 st hst

theorem pageWalk_failed_sub (w : World) (mq : Nat) (q : String) (s : FetchState)
    (hsub : s.failed_repos ⊆ s.seen_repos) :
    (pageWalk w mq q s).state.failed_repos ⊆ (pageWalk w mq q s).state.seen_repos ∧
    ∀ st ∈ checkpointStates (pageWalk w mq q s).events,
      st.failed_repos ⊆ st.seen_repos := by
  induction s using pageWalk.induct w mq q with
  | case1 x hlt hsearch =>
    rw [pageWalk_eq_422 w mq q x hlt hsearch]
    simpa [checkpointStates] using hsub
  | case2 x hlt code hsearch hcode =>
    rw [pageWalk_eq_raise w mq q x code hlt hsearch hcode]
    simpa [checkpointStates] using hsub
  | case3 x hlt hsearch =>
    rw [pageWalk_eq_retry w mq q x hlt hsearch]
    simpa [checkpointStates] using hsub
  | case4 x hlt reset hsearch =>
    rw [pageWalk_eq_rateLimit w mq q x reset hlt hsearch]
    simpa [checkpointStates] using hsub
  | case5 x hlt hsearch =>
    rw [pageWalk_eq_other w mq q x hlt hsearch]
    simpa [checkpointStates] using hsub
  | case6 x hlt data hsearch hempty =>
    rw [pageWalk_eq_empty w mq q x data hlt hsearch hempty]
    simpa [checkpointStates] using hsub
  | case7 x hlt data hsearch hne hpag =>
    rw [pageWalk_eq_lastPage w mq q x data hlt hsearch hne hpag]
    have h := processItems_failed_sub w mq q data.items x hsub
    refine ⟨h.1, ?_⟩
    intro st hst
    dsimp only at hst
    rw [show Event.searchCall q x.page :: (processItems w mq q data.items x).events =
      [Event.searchCall q x.page] ++ (processItems w mq q data.items x).events from rfl,
      checkpointStates_append] at hst
    simp only [checkpointStates, List.filterMap, List.mem_append] at hst
    rcases hst with hst | hst
    · simp at hst
    · exact h.2 st hst
  | case8 x hlt data hsearch hne r hpag s2 ih =>
    rw [pageWalk_eq_nextPage w mq q x data hlt hsearch hne hpag]
    dsimp only
    have h := processItems_failed_sub w mq q data.items x hsub
    have hih := ih h.1
    refine ⟨hih.1, ?_⟩
    intro st hst
    rw [show Event.searchCall q x.page ::
        ((processItems w mq q data.items x).events ++
          (Event.checkpoint { (processItems w mq q data.items x).state with page := x.page + 1 }
            CheckpointKind.pageBoundary ::
            (pageWalk w mq q
              { (processItems w mq q data.items x).state with page := x.page + 1 }).events)) =
      ([Event.searchCall q x.page] ++
        (processItems w mq q data.items x).events) ++
        ([Event.checkpoint { (processItems w mq q data.items x).state with page := x.page + 1 }
            CheckpointKind.pageBoundary] ++
          (pageWalk w mq q
            { (processItems w mq q data.items x).state with page := x.page + 1 }).events)
      from by simp] at hst
    rw [checkpointStates_append, checkpointStates_append, checkpointStates_append] at hst
    simp only [List.mem_append] at hst
    rcases hst with (hst | hst) | hst | hst
    · simp [checkpointStates] at hst
    · exact h.2 st hst
    · simp only [checkpointStates, List.filterMap] at hst
      rw [List.mem_singleton] at hst
      subst hst
      exact h.1
    · exact hih.2 st hst
  | case9 x hlt =>
    rw [pageWalk_eq_cap w mq q x hlt]
    simpa [checkpointStates] using hsub

theorem crawlLoop_failed_sub (w : World) (mq : Nat) (queries : List String) (s : FetchState)
    (hsub : s.failed_repos ⊆ s.seen_repos) :
    (crawlLoop w mq queries s).state.failed_repos ⊆
      (crawlLoop w mq queries s).state.seen_repos ∧
    ∀ st ∈ checkpointStates (crawlLoop w mq queries s).events,
      st.failed_repos ⊆ st.seen_repos := by
  induction s using crawlLoop.induct w mq queries with
  | case1 x h q hin =>
    rename_i ih
    rw [crawlLoop_eq_skip w mq queries x h.1 h.2 hin]
    exact ih hsub
  | case2 x h q hnin r =>
    rename_i hexit
    rw [crawlLoop_eq_raised w mq queries x q h.1 h.2 rfl hnin hexit]
    exact pageWalk_failed_sub w mq q x hsub
  | case3 x h q hnin r =>
    rename_i hexit
    have hpw := pageWalk_failed_sub w mq q x hsub
    rw [crawlLoop_eq_rateLimited w mq queries x q h.1 h.2 rfl hnin hexit]
    refine ⟨hpw.1, ?_⟩
    intro st hst
    rw [checkpointStates_append, List.mem_append] at hst
    rcases hst with hst | hst
    · exact hpw.2 st hst
    · simp only [checkpointStates, List.filterMap] at hst
      rw [List.mem_singleton] at hst
      subst hst
      exact hpw.1
  | case4 x h q hnin r =>
    rename_i hexit
    have hpw := pageWalk_failed_sub w mq q x hsub
    rw [crawlLoop_eq_capReached w mq queries x q h.1 h.2 rfl hnin hexit]
    refine ⟨hpw.1, ?_⟩
    intro st hst
    rw [checkpointStates_append, List.mem_append] at hst
    rcases hst with hst | hst
    · exact hpw.2 st hst
    · simp only [checkpointStates, List.filterMap] at hst
      rw [List.mem_singleton] at hst
      subst hst
      exact hpw.1
  | case5 x h q hnin r hexit s2 =>
    rename_i ih
    have hpw := pageWalk_failed_sub w mq q x hsub
    rw [crawlLoop_eq_exhausted w mq queries x q h.1 h.2 rfl hnin hexit]
    dsimp only
    have hih := ih hpw.1
    refine ⟨hih.1, ?_⟩
    intro st hst
    rw [show (pageWalk w mq q x).events ++
        (Event.checkpoint s2 CheckpointKind.strategyBoundary ::
          (crawlLoop w mq queries s2).events) =
      (pageWalk w mq q x).events ++
        ([Event.checkpoint s2 CheckpointKind.strategyBoundary] ++
          (crawlLoop w mq queries s2).events) from by simp,
      checkpointStates_append, checkpointStates_append] at hst
    simp only [List.mem_append] at hst
    rcases hst with hst | hst | hst
    · exact hpw.2 st hst
    · simp only [checkpointStates, List.filterMap] at hst
      rw [List.mem_singleton] at hst
      subst hst
      exact hpw.1
    · exact hih.2 st hst
  | case6 x hn =>
    rw [crawlLoop_eq_stop w mq queries x hn]
    simpa [checkpointStates] using hsub

/-- C10: starting from a state in which `failed_repos ⊆ seen_repos` (in
particular a fresh state), the invariant holds at every point of the crawl: in
the final state and in every state handed to `state_callback`, because a
repository is added to `failed_repos` only after the same iteration added it
to `seen_repos`. -/
theorem failed_repos_subset_seen (w : World) (mq : Nat) (state? : Option FetchState)
    (custom : Option (List String)) (templates : List String)
    (hsub : (state?.getD FetchState.init).failed_repos ⊆
      (state?.getD FetchState.init).seen_repos) :
    (fetch_configs_resumable w mq state? custom templates).state.failed_repos ⊆
      (fetch_configs_resumable w mq state? custom templates).state.seen_repos ∧
    ∀ st ∈ checkpointStates (fetch_configs_resumable w mq state? custom templates).events,
      st.failed_repos ⊆ st.seen_repos := by
  unfold fetch_configs_resumable
  dsimp only
  refine crawlLoop_failed_sub w mq (queriesOf custom templates) _ ?_
  exact hsub.trans (Finset.subset_union_left)

theorem processItem_content_err (w : World) (mq : Nat) (q : String) (item : SearchItem)
    (s : FetchState) (o n : String)
    (hfn : item.full_name ∉ s.seen_repos)
    (hsplit : splitFullName item.full_name = some (o, n))
    (hnc : w.cacheFileExists o n = false)
    (hcontent : w.rawContent o n (branchOf (w.repoInfo o n)) item.path = .err) :
    processItem w mq q item s =
      ⟨{ s with
         seen_repos := insert item.full_name s.seen_repos
         failed_repos := insert item.full_name s.failed_repos }, none,
       [.repoInfoCall o n, .contentCall o n (branchOf (w.repoInfo o n)) item.path]⟩ := by
  unfold processItem
  dsimp only
  rw [if_neg hfn]
  simp only [hsplit]
  rw [if_neg (by simp [hnc])]
  cases hinfo : w.repoInfo o n with
  | ok st b p =>
    rw [hinfo] at hcontent
    simp only [branchOf] at hcontent
    simp only [hcontent]
    simp [branchOf]
  | err =>
    rw [hinfo] at hcontent
    simp only [branchOf] at hcontent
    simp only [hcontent]
    simp [branchOf]

/-- C8: when the content retrieval for a search hit fails (after its
retries), the failure is absorbed: the repository's full name is recorded in
`failed_repos` (having just been added to `seen_repos`), nothing is yielded
for it, `total_fetched` is not incremented, and the crawl carries on exactly
as a crawl whose state merely contains those two ledger entries — in
particular, the strategy is still appended to `completed_queries` when its
page space is exhausted (here: the page is the last one), `query_index`
advances and `page` resets, and no exception reaches the caller. -/
theorem content_failure_is_per_item (w : World) (mq : Nat) (queries : List String)
    (s : FetchState) (q : String) (item : SearchItem) (tc : Nat) (o n : String)
    (h1 : s.query_index < queries.length) (h2 : s.total_fetched < mq)
    (hq : queries.get ⟨s.query_index, h1⟩ = q) (hnin : q ∉ s.completed_queries)
    (hs : codeSearch w q s.page = .ok ⟨[item], tc⟩)
    (hpag : tc ≤ s.page * 100)
    (hfn : item.full_name ∉ s.seen_repos)
    (hsplit : splitFullName item.full_name = some (o, n))
    (hnc : w.cacheFileExists o n = false)
    (hcontent : w.rawContent o n (branchOf (w.repoInfo o n)) item.path = .err) :
    (crawlLoop w mq queries s).state =
      (crawlLoop w mq queries
        { s with
          seen_repos := insert item.full_name s.seen_repos
          failed_repos := insert item.full_name s.failed_repos
          completed_queries := s.completed_queries ++ [q]
          query_index := s.query_index + 1
          page := 1 }).state ∧
    (crawlLoop w mq queries s).yields =
      (crawlLoop w mq queries
        { s with
          seen_repos := insert item.full_name s.seen_repos
          failed_repos := insert item.full_name s.failed_repos
          completed_queries := s.completed_queries ++ [q]
          query_index := s.query_index + 1
          page := 1 }).yields ∧
    (crawlLoop w mq queries s).exit =
      (crawlLoop w mq queries
        { s with
          seen_repos := insert item.full_name s.seen_repos
          failed_repos := insert item.full_name s.failed_repos
          completed_queries := s.completed_queries ++ [q]
          query_index := s.query_index + 1
          page := 1 }).exit ∧
    (∀ rest, processItems w mq q (item :: rest) s =
      ⟨(processItems w mq q rest
          { s with
            seen_repos := insert item.full_name s.seen_repos
            failed_repos := insert item.full_name s.failed_repos }).state,
       (processItems w mq q rest
          { s with
            seen_repos := insert item.full_name s.seen_repos
            failed_repos := insert item.full_name s.failed_repos }).yields,
       [.repoInfoCall o n, .contentCall o n (branchOf (w.repoInfo o n)) item.path] ++
         (processItems w mq q rest
            { s with
              seen_repos := insert item.full_name s.seen_repos
              failed_repos := insert item.full_name s.failed_repos }).events⟩) := by
  have hpi := processItem_content_err w mq q item s o n hfn hsplit hnc hcontent
  have hnext : ∀ rest, processItems w mq q (item :: rest) s =
      ⟨(processItems w mq q rest
          { s with
            seen_repos := insert item.full_name s.seen_repos
            failed_repos := insert item.full_name s.failed_repos }).state,
       (processItems w mq q rest
          { s with
            seen_repos := insert item.full_name s.seen_repos
            failed_repos := insert item.full_name s.failed_repos }).yields,
       [.repoInfoCall o n, .contentCall o n (branchOf (w.repoInfo o n)) item.path] ++
         (processItems w mq q rest
            { s with
              seen_repos := insert item.full_name s.seen_repos
              failed_repos := insert item.full_name s.failed_repos }).events⟩ := by
    intro rest
    rw [processItems]
    rw [if_neg (Nat.not_le.mpr h2)]
    dsimp only
    rw [hpi]
    rfl
  have hpis : processItems w mq q [item] s =
      ⟨{ s with
         seen_repos := insert item.full_name s.seen_repos
         failed_repos := insert item.full_name s.failed_repos }, [],
       [.repoInfoCall o n, .contentCall o n (branchOf (w.repoInfo o n)) item.path]⟩ := by
    rw [processItems]
    rw [if_neg (Nat.not_le.mpr h2)]
    dsimp only
    rw [hpi]
    simp [processItems]
  have hpw := pageWalk_eq_lastPage w mq q s ⟨[item], tc⟩ h2 hs (by simp) (Or.inl hpag)
  dsimp only at hpw
  rw [hpis] at hpw
  have hexit : (pageWalk w mq q s).exit = .exhausted := by rw [hpw]
  have hcr := crawlLoop_eq_exhausted w mq queries s q h1 h2 hq hnin hexit
  rw [hpw] at hcr
  dsimp only at hcr
  rw [hcr]
  exact ⟨rfl, by simp, rfl, hnext⟩

/-- C7: with a successful search response for the current page, the page walk
declares the strategy exhausted exactly when the page's item list is empty, or
`page * 100 ≥ total_count`, or the upstream page ceiling `page ≥ 10` is hit;
on exhaustion the strategy is appended to `completed_queries`, `query_index`
advances and `page` resets to 1, and the crawl continues from there; otherwise
the page number increments by one and the walk continues at the next page
(that continuation is still subject to the global cap, the subject of the
max-repos claim). -/
theorem page_walk_exhaustion_rule (w : World) (mq : Nat) (queries : List String)
    (s : FetchState) (q : String) (data : SearchData)
    (h1 : s.query_index < queries.length) (h2 : s.total_fetched < mq)
    (hq : queries.get ⟨s.query_index, h1⟩ = q) (hnin : q ∉ s.completed_queries)
    (hs : codeSearch w q s.page = .ok data) :
    ((data.items = [] ∨ data.total_count ≤ s.page * 100 ∨ 10 ≤ s.page) →
      (crawlLoop w mq queries s).state =
        (crawlLoop w mq queries
          { (processItems w mq q data.items s).state with
            completed_queries :=
              (processItems w mq q data.items s).state.completed_queries ++ [q]
            query_index := s.query_index + 1
            page := 1 }).state ∧
      (crawlLoop w mq queries s).yields =
        (processItems w mq q data.items s).yields ++
          (crawlLoop w mq queries
            { (processItems w mq q data.items s).state with
              completed_queries :=
                (processItems w mq q data.items s).state.completed_queries ++ [q]
              query_index := s.query_index + 1
              page := 1 }).yields ∧
      (crawlLoop w mq queries s).exit =
        (crawlLoop w mq queries
          { (processItems w mq q data.items s).state with
            completed_queries :=
              (processItems w mq q data.items s).state.completed_queries ++ [q]
            query_index := s.query_index + 1
            page := 1 }).exit) ∧
    ((data.items ≠ [] ∧ ¬(data.total_count ≤ s.page * 100 ∨ 10 ≤ s.page)) →
      (pageWalk w mq q s).state =
        (pageWalk w mq q
          { (processItems w mq q data.items s).state with page := s.page + 1 }).state ∧
      (pageWalk w mq q s).yields =
        (processItems w mq q data.items s).yields ++
          (pageWalk w mq q
            { (processItems w mq q data.items s).state with page := s.page + 1 }).yields ∧
      (pageWalk w mq q s).exit =
        (pageWalk w mq q
          { (processItems w mq q data.items s).state with page := s.page + 1 }).exit) := by
  constructor
  · intro hcond
    by_cases hemp : data.items = []
    · have hpw := pageWalk_eq_empty w mq q s data h2 hs hemp
      have hexit : (pageWalk w mq q s).exit = .exhausted := by rw [hpw]
      have hcr := crawlLoop_eq_exhausted w mq queries s q h1 h2 hq hnin hexit
      rw [hpw] at hcr
      dsimp only at hcr
      rw [hcr, hemp]
      simp [processItems]
    · have hpag : data.total_count ≤ s.page * 100 ∨ 10 ≤ s.page := by
        rcases hcond with hcond | hcond
        · exact absurd hcond hemp
        · exact hcond
      have hpw := pageWalk_eq_lastPage w mq q s data h2 hs hemp hpag
      have hexit : (pageWalk w mq q s).exit = .exhausted := by rw [hpw]
      have hcr := crawlLoop_eq_exhausted w mq queries s q h1 h2 hq hnin hexit
      rw [hpw] at hcr
      dsimp only at hcr
      rw [hcr]
      exact ⟨rfl, rfl, rfl⟩
  · intro hcond
    have hpw := pageWalk_eq_nextPage w mq q s data h2 hs hcond.1 hcond.2
    rw [hpw]
    exact ⟨rfl, rfl, rfl⟩

/-- C6 (amended): when processing a page makes `total_fetched` reach
`max_repos`, the crawl stops with exit `MAX_REACHED` and yields nothing beyond
that page's yields.  The active strategy is appended to `completed_queries`
(with `query_index` advanced and `page` reset) exactly when that page also
satisfied the pagination-exhaustion condition (`page * 100 ≥ total_count` or
`page ≥ 10`); otherwise the strategy is left incomplete and `page` is
incremented by one, so a future resume re-enters it at the next page. -/
theorem cap_reached_stops (w : World) (mq : Nat) (queries : List String)
    (s : FetchState) (q : String) (data : SearchData)
    (h1 : s.query_index < queries.length) (h2 : s.total_fetched < mq)
    (hq : queries.get ⟨s.query_index, h1⟩ = q) (hnin : q ∉ s.completed_queries)
    (hs : codeSearch w q s.page = .ok data) (hne : data.items ≠ [])
    (hreach : mq ≤ (processItems w mq q data.items s).state.total_fetched) :
    (crawlLoop w mq queries s).exit = .maxReached ∧
    (crawlLoop w mq queries s).yields = (processItems w mq q data.items s).yields ∧
    (crawlLoop w mq queries s).state =
      (if data.total_count ≤ s.page * 100 ∨ 10 ≤ s.page then
        { (processItems w mq q data.items s).state with
          completed_queries :=
            (processItems w mq q data.items s).state.completed_queries ++ [q]
          query_index := s.query_index + 1
          page := 1 }
      else { (processItems w mq q data.items s).state with page := s.page + 1 }) := by
  by_cases hpag : data.total_count ≤ s.page * 100 ∨ 10 ≤ s.page
  · have hpw := pageWalk_eq_lastPage w mq q s data h2 hs hne hpag
    have hexit : (pageWalk w mq q s).exit = .exhausted := by rw [hpw]
    have hcr := crawlLoop_eq_exhausted w mq queries s q h1 h2 hq hnin hexit
    rw [hpw] at hcr
    dsimp only at hcr
    have hstop := crawlLoop_eq_stop w mq queries
      { (processItems w mq q data.items s).state with
        completed_queries :=
          (processItems w mq q data.items s).state.completed_queries ++ [q]
        query_index := s.query_index + 1
        page := 1 } (by intro hc; exact absurd hreach (Nat.not_le.mpr hc.2))
    rw [hstop] at hcr
    dsimp only at hcr
    rw [hcr, if_pos hpag]
    refine ⟨by simp [hreach], by simp, rfl⟩
  · have hpw := pageWalk_eq_nextPage w mq q s data h2 hs hne hpag
    have hcap := pageWalk_eq_cap w mq q
      { (processItems w mq q data.items s).state with page := s.page + 1 }
      (by simpa using Nat.not_lt.mpr hreach)
    dsimp only at hpw hcap
    rw [hcap] at hpw
    have hexit : (pageWalk w mq q s).exit = .capReached := by rw [hpw]
    have hcr := crawlLoop_eq_capReached w mq queries s q h1 h2 hq hnin hexit
    rw [hpw] at hcr
    dsimp only at hcr
    rw [hcr, if_neg hpag]
    exact ⟨rfl, by simp, rfl⟩

/-! ### Concrete worlds used by witnesses and counterexamples -/

/-- A world whose search endpoint answers HTTP 422 on every attempt. -/
def w422 : World where
  searchAttempt := fun _ _ => .httpStatus 422
  cacheFileExists := fun _ _ => false
  repoInfo := fun _ _ => .err
  rawContent := fun _ _ _ _ => .err
  cachedRepos := ∅

/-- A world with one search hit (`a/b`, `total_count = 1`) on page 1 of every
query, whose metadata and content calls succeed. -/
def wCap : World where
  searchAttempt := fun _ p =>
    if p = 1 then .ok ⟨[⟨"a/b", none, "init.lua"⟩], 1⟩ else .ok ⟨[], 0⟩
  cacheFileExists := fun _ _ => false
  repoInfo := fun _ _ => .ok 5 "main" ""
  rawContent := fun _ _ _ _ => .ok "x"
  cachedRepos := ∅

/-- C4, the failing input: `_code_search` hits HTTP 422 on every attempt.  The
tenacity wrapper retries the `HTTPStatusError` five times and then raises
`tenacity.RetryError`, so the `except httpx.HTTPStatusError` arm with the
422 strategy-exhaustion handling (github_client.py lines 399–404) never runs;
the `RetryError` lands in the `except (RateLimitError, RetryError)` arm
instead.  Contrary to the claim (and to the code's own comment \x22Invalid query
or no results - query is done\x22), the crawl halts via the rate-limited path:
the strategy is not appended to `completed_queries`, `query_index` and `page`
do not advance, and the crawl returns instead of continuing with the next
strategy. -/
theorem http422_lands_in_rate_limited_path :
    (fetch_configs_resumable w422 10 (some FetchState.init) (some ["q"]) []).exit =
      .rateLimited ∧
    (fetch_configs_resumable w422 10 (some FetchState.init) (some ["q"]) []).state.completed_queries = [] ∧
    (fetch_configs_resumable w422 10 (some FetchState.init) (some ["q"]) []).state.query_index = 0 ∧
    (fetch_configs_resumable w422 10 (some FetchState.init) (some ["q"]) []).state.page = 1 ∧
    codeSearch w422 "q" 1 = .retryError := by
  refine ⟨?_, ?_, ?_, ?_, rfl⟩ <;>
    simp [fetch_configs_resumable, queriesOf, crawlLoop, pageWalk, codeSearch, w422,
      FetchState.init]

/-- C6, counterexample: with `max_repos = 1` and one strategy whose first page
holds exactly one repository (`total_count = 1`), processing that single item
makes `total_fetched` reach `max_repos` in the middle of the crawl, yet —
contrary to the claim that the active strategy is then left incomplete — the
pagination check still runs, finds `page * 100 ≥ total_count`, and appends the
strategy to `completed_queries` with `query_index` advanced past it. -/
theorem cap_reached_yet_strategy_completed :
    (fetch_configs_resumable wCap 1 (some FetchState.init) (some ["q"]) []).state.total_fetched = 1 ∧
    (fetch_configs_resumable wCap 1 (some FetchState.init) (some ["q"]) []).state.completed_queries = ["q"] ∧
    (fetch_configs_resumable wCap 1 (some FetchState.init) (some ["q"]) []).state.query_index = 1 := by
  refine ⟨?_, ?_, ?_⟩ <;>
    simp [fetch_configs_resumable, queriesOf, crawlLoop, pageWalk, processItems,
      processItem, codeSearch, wCap, FetchState.init, splitFullName, splitAtFirstSlash]

/-- A world whose search endpoint hits the rate limit on every attempt. -/
def wRL : World where
  searchAttempt := fun _ _ => .rateLimit 0
  cacheFileExists := fun _ _ => false
  repoInfo := fun _ _ => .err
  rawContent := fun _ _ _ _ => .err
  cachedRepos := ∅

theorem rate_limit_halts_at_failing_call_witness :
    (fetch_configs_resumable wRL 5 (some FetchState.init) (some ["q"]) []).exit =
      .rateLimited ∧
    ((∀ (s : FetchState) (h1 : s.query_index < (queriesOf (some ["q"]) []).length),
      (queriesOf (some ["q"]) []).get ⟨s.query_index, h1⟩ ∉ s.completed_queries →
      s.total_fetched < 5 →
      (codeSearch wRL ((queriesOf (some ["q"]) []).get ⟨s.query_index, h1⟩)
        s.page).isRateLimitSignal →
      crawlLoop wRL 5 (queriesOf (some ["q"]) []) s =
        ⟨s, [],
         [.searchCall ((queriesOf (some ["q"]) []).get ⟨s.query_index, h1⟩) s.page,
          .checkpoint s .strategyBoundary], .rateLimited⟩) ∧
    ((fetch_configs_resumable wRL 5 (some FetchState.init) (some ["q"]) []).exit = .rateLimited →
      ∃ q, (queriesOf (some ["q"]) []).get?
          (fetch_configs_resumable wRL 5 (some FetchState.init) (some ["q"]) []).state.query_index = some q ∧
        q ∉ (fetch_configs_resumable wRL 5 (some FetchState.init) (some ["q"]) []).state.completed_queries ∧
        (codeSearch wRL q
          (fetch_configs_resumable wRL 5 (some FetchState.init) (some ["q"]) []).state.page).isRateLimitSignal ∧
        (fetch_configs_resumable wRL 5 (some FetchState.init) (some ["q"]) []).state.total_fetched < 5 ∧
        firstSearchCall wRL 5 (queriesOf (some ["q"]) [])
            (fetch_configs_resumable wRL 5 (some FetchState.init) (some ["q"]) []).state =
          some (q, (fetch_configs_resumable wRL 5 (some FetchState.init) (some ["q"]) []).state.page))) :=
  ⟨by simp [fetch_configs_resumable, queriesOf, crawlLoop, pageWalk, codeSearch, wRL,
      FetchState.init],
   rate_limit_halts_at_failing_call wRL 5 (some FetchState.init) (some ["q"]) []⟩

theorem fetch_resumable_dedup_witness :
    ((fetch_configs_resumable wCap 1 (some FetchState.init) (some ["q"]) []).yields.map fullNameOf).Nodup ∧
    ∀ c ∈ (fetch_configs_resumable wCap 1 (some FetchState.init) (some ["q"]) []).yields,
      fullNameOf c ∉ ((some FetchState.init).getD FetchState.init).seen_repos ∧
      fullNameOf c ∉ wCap.cachedRepos :=
  fetch_resumable_dedup wCap 1 (some FetchState.init) (some ["q"]) []

/-- A world with one junk hit (empty `full_name`) on page 1 and
`total_count = 150`, so the page walk advances to page 2 (passing a
page-boundary checkpoint) and finds it empty. -/
def wC3 : World where
  searchAttempt := fun _ p => if p = 1 then .ok ⟨[⟨"", none, ""⟩], 150⟩ else .ok ⟨[], 0⟩
  cacheFileExists := fun _ _ => false
  repoInfo := fun _ _ => .err
  rawContent := fun _ _ _ _ => .err
  cachedRepos := ∅

/-- The page-boundary snapshot of the `wC3` run: page advanced to 2, the junk
hit recorded in `seen_repos`. -/
def smidC3 : FetchState :=
  { query_index := 0, page := 2, total_fetched := 0, seen_repos := insert "" ∅
    failed_repos := ∅, completed_queries := [] }

theorem resume_after_page_boundary_witness :
    smidC3 ∈ pageSnapshots (fetch_configs_resumable wC3 5 (some FetchState.init) (some ["q"]) []).events ∧
    ((fetch_configs_resumable wC3 5 (some smidC3) (some ["q"]) []).state.total_fetched =
      (fetch_configs_resumable wC3 5 (some FetchState.init) (some ["q"]) []).state.total_fetched ∧
    (fetch_configs_resumable wC3 5 (some smidC3) (some ["q"]) []).state.seen_repos =
      (fetch_configs_resumable wC3 5 (some FetchState.init) (some ["q"]) []).state.seen_repos) :=
  ⟨by simp [fetch_configs_resumable, queriesOf, crawlLoop, pageWalk, processItems,
      processItem, codeSearch, wC3, FetchState.init, smidC3, splitFullName,
      splitAtFirstSlash, pageSnapshots],
   resume_after_page_boundary wC3 5 (some FetchState.init) (some ["q"]) [] smidC3
    (by simp [fetch_configs_resumable, queriesOf, crawlLoop, pageWalk, processItems,
      processItem, codeSearch, wC3, FetchState.init, smidC3, splitFullName,
      splitAtFirstSlash, pageSnapshots])⟩

theorem cap_reached_stops_witness :
    (0 < 1 ∧ codeSearch wCap "q" 1 = .ok ⟨[⟨"a/b", none, "init.lua"⟩], 1⟩ ∧
      1 ≤ (processItems wCap 1 "q" [⟨"a/b", none, "init.lua"⟩] FetchState.init).state.total_fetched) ∧
    ((crawlLoop wCap 1 ["q"] FetchState.init).exit = .maxReached ∧
    (crawlLoop wCap 1 ["q"] FetchState.init).yields =
      (processItems wCap 1 "q" (SearchData.items ⟨[⟨"a/b", none, "init.lua"⟩], 1⟩) FetchState.init).yields ∧
    (crawlLoop wCap 1 ["q"] FetchState.init).state =
      (if (SearchData.total_count ⟨[⟨"a/b", none, "init.lua"⟩], 1⟩) ≤ FetchState.init.page * 100 ∨
          10 ≤ FetchState.init.page then
        { (processItems wCap 1 "q" (SearchData.items ⟨[⟨"a/b", none, "init.lua"⟩], 1⟩) FetchState.init).state with
          completed_queries :=
            (processItems wCap 1 "q" (SearchData.items ⟨[⟨"a/b", none, "init.lua"⟩], 1⟩) FetchState.init).state.completed_queries ++ ["q"]
          query_index := FetchState.init.query_index + 1
          page := 1 }
      else { (processItems wCap 1 "q" (SearchData.items ⟨[⟨"a/b", none, "init.lua"⟩], 1⟩) FetchState.init).state with
          page := FetchState.init.page + 1 })) :=
  ⟨⟨by decide, rfl, by decide⟩,
   cap_reached_stops wCap 1 ["q"] FetchState.init "q" ⟨[⟨"a/b", none, "init.lua"⟩], 1⟩
    (by decide) (by decide) rfl (by simp [FetchState.init]) rfl (by simp) (by decide)⟩

theorem page_walk_exhaustion_rule_witness :
    (0 < 5 ∧ codeSearch wCap "q" 1 = .ok ⟨[⟨"a/b", none, "init.lua"⟩], 1⟩) ∧
    ((((SearchData.items ⟨[⟨"a/b", none, "init.lua"⟩], 1⟩) = [] ∨
        (SearchData.total_count ⟨[⟨"a/b", none, "init.lua"⟩], 1⟩) ≤ FetchState.init.page * 100 ∨
        10 ≤ FetchState.init.page) →
      (crawlLoop wCap 5 ["q"] FetchState.init).state =
        (crawlLoop wCap 5 ["q"]
          { (processItems wCap 5 "q" (SearchData.items ⟨[⟨"a/b", none, "init.lua"⟩], 1⟩) FetchState.init).state with
            completed_queries :=
              (processItems wCap 5 "q" (SearchData.items ⟨[⟨"a/b", none, "init.lua"⟩], 1⟩) FetchState.init).state.completed_queries ++ ["q"]
            query_index := FetchState.init.query_index + 1
            page := 1 }).state ∧
      (crawlLoop wCap 5 ["q"] FetchState.init).yields =
        (processItems wCap 5 "q" (SearchData.items ⟨[⟨"a/b", none, "init.lua"⟩], 1⟩) FetchState.init).yields ++
          (crawlLoop wCap 5 ["q"]
            { (processItems wCap 5 "q" (SearchData.items ⟨[⟨"a/b", none, "init.lua"⟩], 1⟩) FetchState.init).state with
              completed_queries :=
                (processItems wCap 5 "q" (SearchData.items ⟨[⟨"a/b", none, "init.lua"⟩], 1⟩) FetchState.init).state.completed_queries ++ ["q"]
              query_index := FetchState.init.query_index + 1
              page := 1 }).yields ∧
      (crawlLoop wCap 5 ["q"] FetchState.init).exit =
        (crawlLoop wCap 5 ["q"]
          { (processItems wCap 5 "q" (SearchData.items ⟨[⟨"a/b", none, "init.lua"⟩], 1⟩) FetchState.init).state with
            completed_queries :=
              (processItems wCap 5 "q" (SearchData.items ⟨[⟨"a/b", none, "init.lua"⟩], 1⟩) FetchState.init).state.completed_queries ++ ["q"]
            query_index := FetchState.init.query_index + 1
            page := 1 }).exit) ∧
    (((SearchData.items ⟨[⟨"a/b", none, "init.lua"⟩], 1⟩) ≠ [] ∧
        ¬((SearchData.total_count ⟨[⟨"a/b", none, "init.lua"⟩], 1⟩) ≤ FetchState.init.page * 100 ∨
          10 ≤ FetchState.init.page)) →
      (pageWalk wCap 5 "q" FetchState.init).state =
        (pageWalk wCap 5 "q"
          { (processItems wCap 5 "q" (SearchData.items ⟨[⟨"a/b", none, "init.lua"⟩], 1⟩) FetchState.init).state with
            page := FetchState.init.page + 1 }).state ∧
      (pageWalk wCap 5 "q" FetchState.init).yields =
        (processItems wCap 5 "q" (SearchData.items ⟨[⟨"a/b", none, "init.lua"⟩], 1⟩) FetchState.init).yields ++
          (pageWalk wCap 5 "q"
            { (processItems wCap 5 "q" (SearchData.items ⟨[⟨"a/b", none, "init.lua"⟩], 1⟩) FetchState.init).state with
              page := FetchState.init.page + 1 }).yields ∧
      (pageWalk wCap 5 "q" FetchState.init).exit =
        (pageWalk wCap 5 "q"
          { (processItems wCap 5 "q" (SearchData.items ⟨[⟨"a/b", none, "init.lua"⟩], 1⟩) FetchState.init).state with
            page := FetchState.init.page + 1 }).exit)) :=
  ⟨⟨by decide, rfl⟩,
   page_walk_exhaustion_rule wCap 5 ["q"] FetchState.init "q"
    ⟨[⟨"a/b", none, "init.lua"⟩], 1⟩ (by decide) (by decide) rfl (by simp [FetchState.init]) rfl⟩

/-- A world like `wCap` whose content retrieval fails on every attempt. -/
def wErr : World where
  searchAttempt := fun _ p =>
    if p = 1 then .ok ⟨[⟨"a/b", none, "init.lua"⟩], 1⟩ else .ok ⟨[], 0⟩
  cacheFileExists := fun _ _ => false
  repoInfo := fun _ _ => .err
  rawContent := fun _ _ _ _ => .err
  cachedRepos := ∅

theorem content_failure_is_per_item_witness :
    (codeSearch wErr "q" 1 = .ok ⟨[⟨"a/b", none, "init.lua"⟩], 1⟩ ∧
      splitFullName "a/b" = some ("a", "b") ∧
      wErr.rawContent "a" "b" (branchOf (wErr.repoInfo "a" "b")) "init.lua" = .err) ∧
    ((crawlLoop wErr 5 ["q"] FetchState.init).state =
      (crawlLoop wErr 5 ["q"]
        { FetchState.init with
          seen_repos := insert "a/b" FetchState.init.seen_repos
          failed_repos := insert "a/b" FetchState.init.failed_repos
          completed_queries := FetchState.init.completed_queries ++ ["q"]
          query_index := FetchState.init.query_index + 1
          page := 1 }).state ∧
    (crawlLoop wErr 5 ["q"] FetchState.init).yields =
      (crawlLoop wErr 5 ["q"]
        { FetchState.init with
          seen_repos := insert "a/b" FetchState.init.seen_repos
          failed_repos := insert "a/b" FetchState.init.failed_repos
          completed_queries := FetchState.init.completed_queries ++ ["q"]
          query_index := FetchState.init.query_index + 1
          page := 1 }).yields ∧
    (crawlLoop wErr 5 ["q"] FetchState.init).exit =
      (crawlLoop wErr 5 ["q"]
        { FetchState.init with
          seen_repos := insert "a/b" FetchState.init.seen_repos
          failed_repos := insert "a/b" FetchState.init.failed_repos
          completed_queries := FetchState.init.completed_queries ++ ["q"]
          query_index := FetchState.init.query_index + 1
          page := 1 }).exit ∧
    (∀ rest, processItems wErr 5 "q" (⟨"a/b", none, "init.lua"⟩ :: rest) FetchState.init =
      ⟨(processItems wErr 5 "q" rest
          { FetchState.init with
            seen_repos := insert "a/b" FetchState.init.seen_repos
            failed_repos := insert "a/b" FetchState.init.failed_repos }).state,
       (processItems wErr 5 "q" rest
          { FetchState.init with
            seen_repos := insert "a/b" FetchState.init.seen_repos
            failed_repos := insert "a/b" FetchState.init.failed_repos }).yields,
       [.repoInfoCall "a" "b",
        .contentCall "a" "b" (branchOf (wErr.repoInfo "a" "b")) "init.lua"] ++
         (processItems wErr 5 "q" rest
            { FetchState.init with
              seen_repos := insert "a/b" FetchState.init.seen_repos
              failed_repos := insert "a/b" FetchState.init.failed_repos }).events⟩)) :=
  ⟨⟨rfl, by decide, rfl⟩,
   content_failure_is_per_item wErr 5 ["q"] FetchState.init "q"
    ⟨"a/b", none, "init.lua"⟩ 1 "a" "b" (by decide) (by decide) rfl
    (by simp [FetchState.init]) rfl (by decide) (by decide) (by decide) rfl rfl⟩

/-- A world in which every repository already has a saved artifact on disk. -/
def wCached : World where
  searchAttempt := fun _ _ => .ok ⟨[], 0⟩
  cacheFileExists := fun _ _ => true
  repoInfo := fun _ _ => .err
  rawContent := fun _ _ _ _ => .err
  cachedRepos := ∅

theorem cache_fast_path_witness :
    ("a/b" ∉ FetchState.init.seen_repos ∧ splitFullName "a/b" = some ("a", "b") ∧
      wCached.cacheFileExists "a" "b" = true) ∧
    processItem wCached 5 "q" ⟨"a/b", none, "init.lua"⟩ FetchState.init =
      ⟨{ FetchState.init with
         seen_repos := insert "a/b" FetchState.init.seen_repos
         total_fetched := FetchState.init.total_fetched + 1 }, none,
       [.progress (FetchState.init.total_fetched + 1) 5 none "q" true]⟩ :=
  ⟨⟨by decide, by decide, rfl⟩,
   cache_fast_path wCached 5 "q" ⟨"a/b", none, "init.lua"⟩ FetchState.init "a" "b"
    (by decide) (by decide) rfl⟩

theorem failed_repos_subset_seen_witness :
    ((some FetchState.init).getD FetchState.init).failed_repos ⊆
      ((some FetchState.init).getD FetchState.init).seen_repos ∧
    ((fetch_configs_resumable wErr 5 (some FetchState.init) (some ["q"]) []).state.failed_repos ⊆
      (fetch_configs_resumable wErr 5 (some FetchState.init) (some ["q"]) []).state.seen_repos ∧
    ∀ st ∈ checkpointStates (fetch_configs_resumable wErr 5 (some FetchState.init) (some ["q"]) []).events,
      st.failed_repos ⊆ st.seen_repos) :=
  ⟨by decide,
   failed_repos_subset_seen wErr 5 (some FetchState.init) (some ["q"]) [] (by decide)⟩

end EigenNeovim
